import Mathlib

/-!
# light-matrix: element-wise expression evaluation and access-scheme selection

A shallow embedding of `light_mat/matexpr/matrix_access_eval.h`,
`light_mat/matexpr/matrix_ewise_eval.h` and `light_mat/matrix/partial_reduce.h`.

* C++ templates over value types become definitions polymorphic in the value type.
* `index_t` is a signed integer; every `index_t` value is embedded as an `Int`.
* Operator tags (`Op`) together with the functor chosen by `unary_op_fun` /
  `binary_op_fun` are embedded as the scalar function they compute.
* An accessor object is a value of an inductive type whose constructors carry the
  private members of the corresponding C++ class.
-/

namespace lmat

/-! ## Basic types -/

/-- Matrix access categories: `any_macc`, `linear_macc`, `percol_macc`. -/
inductive acc_cate where
  | any_macc
  | linear_macc
  | percol_macc
  deriving DecidableEq

/-- Kernel categories: `any_kernel_t`, `scalar_kernel_t`, `simd_kernel_t`. -/
inductive ker_cate where
  | any_kernel_t
  | scalar_kernel_t
  | simd_kernel_t
  deriving DecidableEq

/-- Constant `MACC_CACHE_COST` of `matrix_access_eval.h`. -/
def MACC_CACHE_COST : Int := 1200

/-- Constant `MACC_SHORT_PERCOL_COST` of `matrix_access_eval.h`. -/
def MACC_SHORT_PERCOL_COST : Int := 100

/-- Constant `MACC_SHORTCOL_UBOUND` of `matrix_access_eval.h`. -/
def MACC_SHORTCOL_UBOUND : Int := 4

/-- Two's complement reduction of an integer to the range of a 32-bit `int`. -/
def int32_wrap (x : Int) : Int := (x + 2147483648) % 4294967296 - 2147483648

/-- Run-time addition of two `int` values. -/
def int_add (a b : Int) : Int := int32_wrap (a + b)

/-! ## Leaves and expression trees -/

/-- A leaf matrix operand. The dense matrix classes and their accessors
(`dense_accessors.h`) lie outside the element-wise layer, so a leaf is given by
exactly what this layer consumes from it:
* `elem i j`: the element at row `i`, column `j` (`operator()(i, j)`);
* `linear_get_scalar i`: `get_scalar(i)` of the leaf's linear scalar accessor,
  the leaf's own element with linear index `i`;
* `col_state_t`, `col_state j`, `percol_get_scalar i s`: the state type,
  `col_state(j)` and `get_scalar(i, s)` of the leaf's per-column scalar accessor;
* `cost a k`: the constant `macc_cost<Leaf, a, k>::value`. -/
structure leaf_mat (α : Type) where
  elem : Int → Int → α
  linear_get_scalar : Int → α
  col_state_t : Type
  col_state : Int → col_state_t
  percol_get_scalar : Int → col_state_t → α
  cost : acc_cate → ker_cate → Int

/-- Element-wise expression trees: leaves and the four node classes
`unary_ewise_expr`, `binary_ewise_expr`, `binary_fix1st_ewise_expr`,
`binary_fix2nd_ewise_expr`. The index is the expression's `value_type`. -/
inductive Xpr : Type → Type 1 where
  | leaf {α : Type} (mat : leaf_mat α) : Xpr α
  | unary_ewise_expr {α β : Type} (op : α → β) (arg : Xpr α) : Xpr β
  | binary_ewise_expr {α β γ : Type} (op : α → β → γ)
      (first_arg : Xpr α) (second_arg : Xpr β) : Xpr γ
  | binary_fix1st_ewise_expr {α β γ : Type} (op : α → β → γ)
      (arg1_value : α) (arg : Xpr β) : Xpr γ
  | binary_fix2nd_ewise_expr {α β γ : Type} (op : α → β → γ)
      (arg : Xpr α) (arg2_value : β) : Xpr γ

/-! ## Cost model -/

/-- The constant `macc_cost<Xpr, AccCate, KerCate>::value`. It is a compile-time
constant expression, in which an `int` overflow is rejected by the compiler, so the
sum is the exact integer sum. -/
def macc_cost {α : Type} : Xpr α → acc_cate → ker_cate → Int
  | .leaf mat, a, k => mat.cost a k
  | .unary_ewise_expr _ arg, a, k => macc_cost arg a k
  | .binary_ewise_expr _ arg1 arg2, a, k => macc_cost arg1 a k + macc_cost arg2 a k
  | .binary_fix1st_ewise_expr _ _ arg2, a, k => macc_cost arg2 a k
  | .binary_fix2nd_ewise_expr _ arg1 _, a, k => macc_cost arg1 a k

/-! ## Linear scalar accessors -/

/-- Accessor objects of category `linear_macc`, kernel `scalar_kernel_t`. Each
constructor carries the private members of the corresponding class. -/
inductive linear_accessor : Type → Type 1 where
  | leaf {α : Type} (get : Int → α) : linear_accessor α
  | unary_ewise_accessor {α β : Type} (m_fun : α → β)
      (m_arg_acc : linear_accessor α) : linear_accessor β
  | binary_ewise_accessor {α β γ : Type} (m_fun : α → β → γ)
      (m_arg1_acc : linear_accessor α) (m_arg2_acc : linear_accessor β) : linear_accessor γ
  | binary_fix1st_ewise_accessor {α β γ : Type} (m_fun : α → β → γ)
      (m_arg1v : α) (m_arg2_acc : linear_accessor β) : linear_accessor γ
  | binary_fix2nd_ewise_accessor {α β γ : Type} (m_fun : α → β → γ)
      (m_arg1_acc : linear_accessor α) (m_arg2v : β) : linear_accessor γ

/-- The constructors of the linear scalar accessors: the accessor selected by
`macc_accessor_map<Xpr, linear_macc, scalar_kernel_t>` built from the expression. -/
def make_linear_accessor {α : Type} : Xpr α → linear_accessor α
  | .leaf mat => .leaf mat.linear_get_scalar
  | .unary_ewise_expr op arg => .unary_ewise_accessor op (make_linear_accessor arg)
  | .binary_ewise_expr op a b =>
      .binary_ewise_accessor op (make_linear_accessor a) (make_linear_accessor b)
  | .binary_fix1st_ewise_expr op v b =>
      .binary_fix1st_ewise_accessor op v (make_linear_accessor b)
  | .binary_fix2nd_ewise_expr op a v =>
      .binary_fix2nd_ewise_accessor op (make_linear_accessor a) v

/-- Method `get_scalar(i)` of the linear scalar accessors. -/
def linear_accessor.get_scalar {α : Type} : linear_accessor α → Int → α
  | .leaf get, i => get i
  | .unary_ewise_accessor m_fun m_arg_acc, i => m_fun (m_arg_acc.get_scalar i)
  | .binary_ewise_accessor m_fun m_arg1_acc m_arg2_acc, i =>
      m_fun (m_arg1_acc.get_scalar i) (m_arg2_acc.get_scalar i)
  | .binary_fix1st_ewise_accessor m_fun m_arg1v m_arg2_acc, i =>
      m_fun m_arg1v (m_arg2_acc.get_scalar i)
  | .binary_fix2nd_ewise_accessor m_fun m_arg1_acc m_arg2v, i =>
      m_fun (m_arg1_acc.get_scalar i) m_arg2v

/-! ## Per-column scalar accessors -/

/-- Accessor objects of category `percol_macc`, kernel `scalar_kernel_t`. -/
inductive percol_accessor : Type → Type 1 where
  | leaf {α : Type} (col_state_t : Type) (col_state : Int → col_state_t)
      (get : Int → col_state_t → α) : percol_accessor α
  | unary_ewise_accessor {α β : Type} (m_fun : α → β)
      (m_arg_acc : percol_accessor α) : percol_accessor β
  | binary_ewise_accessor {α β γ : Type} (m_fun : α → β → γ)
      (m_arg1_acc : percol_accessor α) (m_arg2_acc : percol_accessor β) : percol_accessor γ
  | binary_fix1st_ewise_accessor {α β γ : Type} (m_fun : α → β → γ)
      (m_arg1v : α) (m_arg2_acc : percol_accessor β) : percol_accessor γ
  | binary_fix2nd_ewise_accessor {α β γ : Type} (m_fun : α → β → γ)
      (m_arg1_acc : percol_accessor α) (m_arg2v : β) : percol_accessor γ

/-- The constructors of the per-column scalar accessors. -/
def make_percol_accessor {α : Type} : Xpr α → percol_accessor α
  | .leaf mat => .leaf mat.col_state_t mat.col_state mat.percol_get_scalar
  | .unary_ewise_expr op arg => .unary_ewise_accessor op (make_percol_accessor arg)
  | .binary_ewise_expr op a b =>
      .binary_ewise_accessor op (make_percol_accessor a) (make_percol_accessor b)
  | .binary_fix1st_ewise_expr op v b =>
      .binary_fix1st_ewise_accessor op v (make_percol_accessor b)
  | .binary_fix2nd_ewise_expr op a v =>
      .binary_fix2nd_ewise_accessor op (make_percol_accessor a) v

/-- The column state type `percol_macc_state_map<Accessor>::type`. -/
def percol_macc_state_map {α : Type} : percol_accessor α → Type
  | .leaf col_state_t _ _ => col_state_t
  | .unary_ewise_accessor _ m_arg_acc => percol_macc_state_map m_arg_acc
  | .binary_ewise_accessor _ m_arg1_acc m_arg2_acc =>
      percol_macc_state_map m_arg1_acc × percol_macc_state_map m_arg2_acc
  | .binary_fix1st_ewise_accessor _ _ m_arg2_acc => percol_macc_state_map m_arg2_acc
  | .binary_fix2nd_ewise_accessor _ m_arg1_acc _ => percol_macc_state_map m_arg1_acc

/-- Method `col_state(j)` of the per-column scalar accessors. -/
def percol_accessor.col_state {α : Type} :
    (acc : percol_accessor α) → Int → percol_macc_state_map acc
  | .leaf _ col_state _, j => col_state j
  | .unary_ewise_accessor _ m_arg_acc, j => m_arg_acc.col_state j
  | .binary_ewise_accessor _ m_arg1_acc m_arg2_acc, j =>
      (m_arg1_acc.col_state j, m_arg2_acc.col_state j)
  | .binary_fix1st_ewise_accessor _ _ m_arg2_acc, j => m_arg2_acc.col_state j
  | .binary_fix2nd_ewise_accessor _ m_arg1_acc _, j => m_arg1_acc.col_state j

/-- Method `get_scalar(i, s)` of the per-column scalar accessors. -/
def percol_accessor.get_scalar {α : Type} :
    (acc : percol_accessor α) → Int → percol_macc_state_map acc → α
  | .leaf _ _ get, i, s => get i s
  | .unary_ewise_accessor m_fun m_arg_acc, i, s => m_fun (m_arg_acc.get_scalar i s)
  | .binary_ewise_accessor m_fun m_arg1_acc m_arg2_acc, i, s =>
      m_fun (m_arg1_acc.get_scalar i s.1) (m_arg2_acc.get_scalar i s.2)
  | .binary_fix1st_ewise_accessor m_fun m_arg1v m_arg2_acc, i, s =>
      m_fun m_arg1v (m_arg2_acc.get_scalar i s)
  | .binary_fix2nd_ewise_accessor m_fun m_arg1_acc m_arg2v, i, s =>
      m_fun (m_arg1_acc.get_scalar i s) m_arg2v

/-! ## Reference semantics -/

/-- Naive recursive evaluation of an expression tree at linear index `i`: each
node's operator applied to its operands' values at `i`, a leaf giving its own
element `i`. -/
def naive_eval_linear {α : Type} : Xpr α → Int → α
  | .leaf mat, i => mat.linear_get_scalar i
  | .unary_ewise_expr op arg, i => op (naive_eval_linear arg i)
  | .binary_ewise_expr op a b, i => op (naive_eval_linear a i) (naive_eval_linear b i)
  | .binary_fix1st_ewise_expr op v b, i => op v (naive_eval_linear b i)
  | .binary_fix2nd_ewise_expr op a v, i => op (naive_eval_linear a i) v

/-- Naive recursive evaluation of an expression tree at position `(i, j)`: each
node's operator applied to its operands' values at `(i, j)`, a leaf giving its
element `(i, j)`. -/
def naive_eval {α : Type} : Xpr α → Int → Int → α
  | .leaf mat, i, j => mat.elem i j
  | .unary_ewise_expr op arg, i, j => op (naive_eval arg i j)
  | .binary_ewise_expr op a b, i, j => op (naive_eval a i j) (naive_eval b i j)
  | .binary_fix1st_ewise_expr op v b, i, j => op v (naive_eval b i j)
  | .binary_fix2nd_ewise_expr op a v, i, j => op (naive_eval a i j) v

/-- Every leaf's per-column accessor returns the leaf's element `(i, j)` from its
own `col_state(j)`. -/
def percol_leaves_ok {α : Type} : Xpr α → Int → Int → Prop
  | .leaf mat, i, j => mat.percol_get_scalar i (mat.col_state j) = mat.elem i j
  | .unary_ewise_expr _ arg, i, j => percol_leaves_ok arg i j
  | .binary_ewise_expr _ a b, i, j => percol_leaves_ok a i j ∧ percol_leaves_ok b i j
  | .binary_fix1st_ewise_expr _ _ b, i, j => percol_leaves_ok b i j
  | .binary_fix2nd_ewise_expr _ a _, i, j => percol_leaves_ok a i j

/-- Every leaf's linear element `j * m + i` is its element `(i, j)` (column-major
layout with `m` rows). -/
def linear_leaves_ok {α : Type} (m : Int) : Xpr α → Int → Int → Prop
  | .leaf mat, i, j => mat.linear_get_scalar (j * m + i) = mat.elem i j
  | .unary_ewise_expr _ arg, i, j => linear_leaves_ok m arg i j
  | .binary_ewise_expr _ a b, i, j => linear_leaves_ok m a i j ∧ linear_leaves_ok m b i j
  | .binary_fix1st_ewise_expr _ _ b, i, j => linear_leaves_ok m b i j
  | .binary_fix2nd_ewise_expr _ a _, i, j => linear_leaves_ok m a i j

/-! ## Destination and drive loops -/

/-- Modelled from the spec: the destination matrix (the dense storage classes are
not part of these sources). It exposes its row count, its column count, a flag
indicating linear-indexing support and a scalar write indexed by (row, column) or
linearly; `data i j` is its content at row `i`, column `j`. -/
structure dense_dest (α : Type) where
  nrows : Int
  ncolumns : Int
  ct_supports_linear_index : Bool
  data : Int → Int → α

/-- Modelled from the spec: the destination's scalar write indexed by (row, column). -/
def dense_dest.write {α : Type} (d : dense_dest α) (i j : Int) (v : α) : dense_dest α :=
  { d with data := fun i' j' => if i' = i ∧ j' = j then v else d.data i' j' }

/-- Modelled from the spec: the destination's scalar write indexed linearly. The
flat index runs over the elements in column-major order, so index `k` of a
destination with `nrows` rows is row `k % nrows` of column `k / nrows`. -/
def dense_dest.write_linear {α : Type} (d : dense_dest α) (k : Int) (v : α) :
    dense_dest α :=
  d.write (k % d.nrows) (k / d.nrows) v

/-- Modelled from the spec: `internal::macc_eval_linear_scalar::evaluate` of
`bits/macc_eval_impl.h`, which is not part of these sources. It builds the linear
accessor of the expression and walks the destination linearly over
`i = 0, ..., nelems - 1`, pulling one scalar through the accessor per index and
writing it into the destination. -/
def macc_eval_linear_scalar_evaluate {α : Type} (nelems : Int) (sexpr : Xpr α)
    (dmat : dense_dest α) : dense_dest α :=
  let accessor := make_linear_accessor sexpr
  (List.range nelems.toNat).foldl
    (fun (d : dense_dest α) (k : Nat) =>
      d.write_linear (k : Int) (accessor.get_scalar (k : Int))) dmat

/-- Modelled from the spec: `internal::macc_eval_percol_scalar::evaluate` of
`bits/macc_eval_impl.h`, which is not part of these sources. It builds the
per-column accessor of the expression and walks the destination column by column:
for each column `j = 0, ..., n - 1` it computes `col_state(j)` once and writes
`get_scalar(i, state)` at `(i, j)` for `i = 0, ..., m - 1`. -/
def macc_eval_percol_scalar_evaluate {α : Type} (m n : Int) (sexpr : Xpr α)
    (dmat : dense_dest α) : dense_dest α :=
  let accessor := make_percol_accessor sexpr
  (List.range n.toNat).foldl
    (fun (d : dense_dest α) (j : Nat) =>
      let s := accessor.col_state (j : Int)
      (List.range m.toNat).foldl
        (fun (d : dense_dest α) (i : Nat) =>
          d.write (i : Int) (j : Int) (accessor.get_scalar (i : Int) s)) d)
    dmat

/-! ## Access schemes -/

/-- The shape member `matrix_shape<M, N>` of a scheme: the row and column counts
it was constructed with. -/
structure matrix_shape where
  nrows : Int
  ncolumns : Int
  deriving DecidableEq

/-- Method `matrix_shape::nelems()`: the total number of elements. -/
def matrix_shape.nelems (s : matrix_shape) : Int := s.nrows * s.ncolumns

/-- The class `macc_scheme<any_macc, scalar_kernel_t, M, N>`. -/
structure macc_scheme_any_scalar where
  shape : matrix_shape
  _use_linear : Bool
  deriving DecidableEq

/-- The class `macc_scheme<linear_macc, scalar_kernel_t, M, N>`. -/
structure macc_scheme_linear_scalar where
  shape : matrix_shape
  deriving DecidableEq

/-- The class `macc_scheme<percol_macc, scalar_kernel_t, M, N>`. -/
structure macc_scheme_percol_scalar where
  shape : matrix_shape
  deriving DecidableEq

/-- Method `macc_scheme<any_macc, scalar_kernel_t>::use_linear()`. -/
def macc_scheme_any_scalar.use_linear (s : macc_scheme_any_scalar) : Bool := s._use_linear

/-- Method `macc_scheme<any_macc, scalar_kernel_t>::use_simd()`. -/
def macc_scheme_any_scalar.use_simd (_s : macc_scheme_any_scalar) : Bool := false

/-- Method `macc_scheme<any_macc, scalar_kernel_t>::evaluate(sexpr, dmat)`. -/
def macc_scheme_any_scalar.evaluate {α : Type} (s : macc_scheme_any_scalar)
    (sexpr : Xpr α) (dmat : dense_dest α) : dense_dest α :=
  if s._use_linear then
    macc_eval_linear_scalar_evaluate s.shape.nelems sexpr dmat
  else
    macc_eval_percol_scalar_evaluate s.shape.nrows s.shape.ncolumns sexpr dmat

/-- Static method `macc_scheme<any_macc, scalar_kernel_t>::get_default(expr, dmat)`. -/
def macc_scheme_any_scalar.get_default {α β : Type} (expr : Xpr α) (dmat : dense_dest β) :
    macc_scheme_any_scalar :=
  let m := dmat.nrows
  let macc_linear_cost := macc_cost expr .linear_macc .scalar_kernel_t
  let macc_percol_cost := macc_cost expr .percol_macc .scalar_kernel_t
  let macc_percol_cost :=
    if m ≤ MACC_SHORT_PERCOL_COST then int_add macc_percol_cost MACC_SHORT_PERCOL_COST
    else macc_percol_cost
  { shape := { nrows := m, ncolumns := dmat.ncolumns },
    _use_linear := decide (macc_linear_cost ≤ macc_percol_cost) }

/-- Method `macc_scheme<linear_macc, scalar_kernel_t>::use_linear()`. -/
def macc_scheme_linear_scalar.use_linear (_s : macc_scheme_linear_scalar) : Bool := true

/-- Method `macc_scheme<linear_macc, scalar_kernel_t>::use_simd()`. -/
def macc_scheme_linear_scalar.use_simd (_s : macc_scheme_linear_scalar) : Bool := false

/-- Method `macc_scheme<linear_macc, scalar_kernel_t>::evaluate(sexpr, dmat)`. -/
def macc_scheme_linear_scalar.evaluate {α : Type} (s : macc_scheme_linear_scalar)
    (sexpr : Xpr α) (dmat : dense_dest α) : dense_dest α :=
  macc_eval_linear_scalar_evaluate s.shape.nelems sexpr dmat

/-- Static method `macc_scheme<linear_macc, scalar_kernel_t>::get_default(expr, dmat)`. -/
def macc_scheme_linear_scalar.get_default {α β : Type} (_expr : Xpr α) (dmat : dense_dest β) :
    macc_scheme_linear_scalar :=
  { shape := { nrows := dmat.nrows, ncolumns := dmat.ncolumns } }

/-- Method `macc_scheme<percol_macc, scalar_kernel_t>::use_linear()`. -/
def macc_scheme_percol_scalar.use_linear (_s : macc_scheme_percol_scalar) : Bool := false

/-- Method `macc_scheme<percol_macc, scalar_kernel_t>::use_simd()`. -/
def macc_scheme_percol_scalar.use_simd (_s : macc_scheme_percol_scalar) : Bool := false

/-- Method `macc_scheme<percol_macc, scalar_kernel_t>::evaluate(sexpr, dmat)`. -/
def macc_scheme_percol_scalar.evaluate {α : Type} (s : macc_scheme_percol_scalar)
    (sexpr : Xpr α) (dmat : dense_dest α) : dense_dest α :=
  macc_eval_percol_scalar_evaluate s.shape.nrows s.shape.ncolumns sexpr dmat

/-- Static method `macc_scheme<percol_macc, scalar_kernel_t>::get_default(expr, dmat)`. -/
def macc_scheme_percol_scalar.get_default {α β : Type} (_expr : Xpr α) (dmat : dense_dest β) :
    macc_scheme_percol_scalar :=
  { shape := { nrows := dmat.nrows, ncolumns := dmat.ncolumns } }

/-- The scheme type `default_macc_scheme<SExpr, DMat>::type`: the `any_macc` scalar
scheme when the destination type supports linear indexing, the `percol_macc`
scalar scheme otherwise. -/
inductive default_macc_scheme_type where
  | any_macc (s : macc_scheme_any_scalar)
  | percol_macc (s : macc_scheme_percol_scalar)
  deriving DecidableEq

/-- Static method `default_macc_scheme<SExpr, DMat>::get(sexpr, dmat)`. -/
def default_macc_scheme_get {α β : Type} (sexpr : Xpr α) (dmat : dense_dest β) :
    default_macc_scheme_type :=
  if dmat.ct_supports_linear_index then
    .any_macc (macc_scheme_any_scalar.get_default sexpr dmat)
  else
    .percol_macc (macc_scheme_percol_scalar.get_default sexpr dmat)

/-- Function `get_default_eval_scheme(sexpr, dmat)` of `matrix_ewise_eval.h`, the
same for the four element-wise expression classes. -/
def get_default_eval_scheme {α β : Type} (sexpr : Xpr α) (dmat : dense_dest β) :
    default_macc_scheme_type :=
  default_macc_scheme_get sexpr dmat

/-- Method `evaluate(sexpr, dmat)` of the scheme type chosen by `default_macc_scheme`. -/
def default_macc_scheme_type.evaluate {α : Type} (s : default_macc_scheme_type)
    (sexpr : Xpr α) (dmat : dense_dest α) : dense_dest α :=
  match s with
  | .any_macc s => s.evaluate sexpr dmat
  | .percol_macc s => s.evaluate sexpr dmat

/-- Modelled from the spec: the entry contract "evaluate(expression, destination)",
the assignment of an expression to a destination (its code is not part of these
sources): it resolves the default scheme and lets it drive the accessor tree. -/
def assign {α : Type} (dmat : dense_dest α) (sexpr : Xpr α) : dense_dest α :=
  (get_default_eval_scheme sexpr dmat).evaluate sexpr dmat


/-- Method `use_linear()` of the scheme type chosen by `default_macc_scheme`. -/
def default_macc_scheme_type.use_linear (s : default_macc_scheme_type) : Bool :=
  match s with
  | .any_macc s => s.use_linear
  | .percol_macc s => s.use_linear

/-- Method `use_simd()` of the scheme type chosen by `default_macc_scheme`. -/
def default_macc_scheme_type.use_simd (s : default_macc_scheme_type) : Bool :=
  match s with
  | .any_macc s => s.use_simd
  | .percol_macc s => s.use_simd

/-! ## Sample operands for the worked instances -/

/-- A dense column-major leaf with `m` rows whose element `(i, j)` is
`f i j`: its linear element `k` is the element at row `k % m` of column `k / m`, and
its per-column accessor keeps the column index as column state. -/
def dense_leaf {α : Type} (m : Int) (f : Int → Int → α) (c : acc_cate → ker_cate → Int) :
    leaf_mat α :=
  { elem := f,
    linear_get_scalar := fun k => f (k % m) (k / m),
    col_state_t := Int,
    col_state := fun j => j,
    percol_get_scalar := fun i s => f i s,
    cost := c }

/-- Sample 3 x 2 integer matrix with element `(i, j)` equal to `10 * i + j`. -/
def sample_S1 : leaf_mat Int := dense_leaf 3 (fun i j => 10 * i + j) (fun _ _ => 0)

/-- Sample 3 x 2 integer matrix with element `(i, j)` equal to `i * j + 1`. -/
def sample_S2 : leaf_mat Int := dense_leaf 3 (fun i j => i * j + 1) (fun _ _ => 0)

/-- Sample 3 x 2 rational matrix with element `(i, j)` equal to `i + j / 2`. -/
def sample_Q : leaf_mat ℚ := dense_leaf 3 (fun i j => (i : ℚ) + (j : ℚ) / 2) (fun _ _ => 0)

/-- Sample 3 x 2 integer destination that supports linear indexing, filled with zeros. -/
def sample_dest : dense_dest Int :=
  { nrows := 3, ncolumns := 2, ct_supports_linear_index := true, data := fun _ _ => 0 }

/-- Sample 3 x 2 integer destination without linear indexing, filled with zeros. -/
def sample_dest_percol : dense_dest Int :=
  { nrows := 3, ncolumns := 2, ct_supports_linear_index := false, data := fun _ _ => 0 }

/-- Sample expression tree using all four node classes:
`(S1 * S1) + ((7 - S2) - 3)` element-wise. -/
def sample_expr : Xpr Int :=
  .binary_ewise_expr (fun x y => x + y)
    (.unary_ewise_expr (fun x => x * x) (.leaf sample_S1))
    (.binary_fix2nd_ewise_expr (fun x y => x - y)
      (.binary_fix1st_ewise_expr (fun x y => x - y) 7 (.leaf sample_S2)) 3)

/-- Sample leaf with linear cost 50 and per-column cost 0. -/
def sample_cost_leaf : leaf_mat Int :=
  dense_leaf 100 (fun _ _ => 0)
    (fun a _ => match a with
      | .linear_macc => 50
      | _ => 0)

/-- Sample destination with exactly 100 rows and one column. -/
def sample_dest_100 : dense_dest Int :=
  { nrows := 100, ncolumns := 1, ct_supports_linear_index := true, data := fun _ _ => 0 }

/-- Sample destination with 101 rows and one column. -/
def sample_dest_101 : dense_dest Int :=
  { nrows := 101, ncolumns := 1, ct_supports_linear_index := true, data := fun _ _ => 0 }

/-! ## Partial reduction expressions -/

/-- A matrix expression as seen through the interface `IMatrixXpr<Arg, T>`: its row
count `nrows()`, its column count `ncolumns()` and the expression itself
(`derived()`). The shape methods of the matrix classes and of the element-wise
expression classes are declared in headers outside these sources, so the shape is
carried next to the expression. -/
structure IMatrixXpr (α : Type) where
  nrows : Int
  ncolumns : Int
  derived : Xpr α

/-- Modelled from the spec: a reduction functor (`math/reduction_functors.h` is not
part of these sources): an associative combining operation with a declared identity
and result type, exposing an identity/accumulate contract. `α` is its `arg_type`,
`ρ` its `result_type`. -/
structure reduction_functor (α ρ : Type) where
  identity : ρ
  accumulate : ρ → α → ρ

/-- Modelled from the spec: the functor `sum_fun<T>` of `math/reduction_functors.h`
(not part of these sources): the sum, with identity `0` and accumulation by
addition. -/
def sum_fun (α : Type) [Zero α] [Add α] : reduction_functor α α :=
  { identity := 0, accumulate := fun s x => s + x }

/-- The class `colwise_reduce_expr<Fun, Arg_HP, Arg>`: the functor `m_fun` (returned
by `fun()`) and the argument expression held by `unary_expr_base` (returned by
`arg()`). -/
structure colwise_reduce_expr (Fun α : Type) where
  m_fun : Fun
  arg : IMatrixXpr α

/-- Method `colwise_reduce_expr::nelems()`. -/
def colwise_reduce_expr.nelems {Fun α : Type} (e : colwise_reduce_expr Fun α) : Int :=
  e.arg.ncolumns

/-- Method `colwise_reduce_expr::size()`: `static_cast<size_t>(nelems())`, the
conversion of the signed count to a 64-bit unsigned `size_t`. -/
def colwise_reduce_expr.size {Fun α : Type} (e : colwise_reduce_expr Fun α) : Int :=
  e.nelems % 18446744073709551616

/-- Method `colwise_reduce_expr::nrows()`. -/
def colwise_reduce_expr.nrows {Fun α : Type} (_e : colwise_reduce_expr Fun α) : Int := 1

/-- Method `colwise_reduce_expr::ncolumns()`. -/
def colwise_reduce_expr.ncolumns {Fun α : Type} (e : colwise_reduce_expr Fun α) : Int :=
  e.arg.ncolumns

/-- The class `rowwise_reduce_expr<Fun, Arg_HP, Arg>`: the functor `m_fun` (returned
by `fun()`) and the argument expression held by `unary_expr_base` (returned by
`arg()`). -/
structure rowwise_reduce_expr (Fun α : Type) where
  m_fun : Fun
  arg : IMatrixXpr α

/-- Method `rowwise_reduce_expr::nelems()`. -/
def rowwise_reduce_expr.nelems {Fun α : Type} (e : rowwise_reduce_expr Fun α) : Int :=
  e.arg.nrows

/-- Method `rowwise_reduce_expr::size()`: `static_cast<size_t>(nelems())`, the
conversion of the signed count to a 64-bit unsigned `size_t`. -/
def rowwise_reduce_expr.size {Fun α : Type} (e : rowwise_reduce_expr Fun α) : Int :=
  e.nelems % 18446744073709551616

/-- Method `rowwise_reduce_expr::nrows()`. -/
def rowwise_reduce_expr.nrows {Fun α : Type} (e : rowwise_reduce_expr Fun α) : Int :=
  e.arg.nrows

/-- Method `rowwise_reduce_expr::ncolumns()`. -/
def rowwise_reduce_expr.ncolumns {Fun α : Type} (_e : rowwise_reduce_expr Fun α) : Int := 1

/-- Function `reduce(fun, arg, colwise)`: through `unary_expr_map<colwise_reduce_t<Fun>,
ref_arg_t, Arg>::get` it constructs `colwise_reduce_expr(fun, arg)`. -/
def reduce_colwise {Fun α : Type} (f : Fun) (arg : IMatrixXpr α) : colwise_reduce_expr Fun α :=
  { m_fun := f, arg := arg }

/-- Function `reduce(fun, arg, rowwise)`: through `unary_expr_map<rowwise_reduce_t<Fun>,
ref_arg_t, Arg>::get` it constructs `rowwise_reduce_expr(fun, arg)`. -/
def reduce_rowwise {Fun α : Type} (f : Fun) (arg : IMatrixXpr α) : rowwise_reduce_expr Fun α :=
  { m_fun := f, arg := arg }

/-- Function `sum(arg, colwise)`. -/
def sum_colwise {α : Type} [Zero α] [Add α] (arg : IMatrixXpr α) :
    colwise_reduce_expr (reduction_functor α α) α :=
  reduce_colwise (sum_fun α) arg

/-- Function `sum(arg, rowwise)`. -/
def sum_rowwise {α : Type} [Zero α] [Add α] (arg : IMatrixXpr α) :
    rowwise_reduce_expr (reduction_functor α α) α :=
  reduce_rowwise (sum_fun α) arg

/-- Modelled from the spec: the evaluation of a column-wise reduction expression
(`bits/partial_reduce_internal.h` is not part of these sources). Entry `j` of the
result collapses column `j` of the argument: the functor accumulates, starting from
its identity, the argument's values at rows `0, ..., nrows - 1` of column `j`. -/
def colwise_reduce_expr.value {α ρ : Type}
    (e : colwise_reduce_expr (reduction_functor α ρ) α) (j : Int) : ρ :=
  (List.range e.arg.nrows.toNat).foldl
    (fun (acc : ρ) (i : Nat) => e.m_fun.accumulate acc (naive_eval e.arg.derived (i : Int) j))
    e.m_fun.identity

/-- Modelled from the spec: the evaluation of a row-wise reduction expression
(`bits/partial_reduce_internal.h` is not part of these sources). Entry `i` of the
result collapses row `i` of the argument: the functor accumulates, starting from its
identity, the argument's values at columns `0, ..., ncolumns - 1` of row `i`. -/
def rowwise_reduce_expr.value {α ρ : Type}
    (e : rowwise_reduce_expr (reduction_functor α ρ) α) (i : Int) : ρ :=
  (List.range e.arg.ncolumns.toNat).foldl
    (fun (acc : ρ) (j : Nat) => e.m_fun.accumulate acc (naive_eval e.arg.derived i (j : Int)))
    e.m_fun.identity

/-- Modelled from the spec: `embed(expr)` applied to a column-wise reduction (its
header is not part of these sources). The reduction becomes a matrix operand of the
element-wise layer: a dense `1 x n` matrix whose entry `j` is the reduction's value
for column `j`. `embed_cost` is the `macc_cost` table of the embedded operand, which
is declared outside these sources. -/
def colwise_reduce_expr.embed {α ρ : Type} (embed_cost : acc_cate → ker_cate → Int)
    (e : colwise_reduce_expr (reduction_functor α ρ) α) : IMatrixXpr ρ :=
  { nrows := e.nrows,
    ncolumns := e.ncolumns,
    derived := .leaf (dense_leaf e.nrows (fun _ j => e.value j) embed_cost) }

/-- Modelled from the spec: `embed(expr)` applied to a row-wise reduction (its header
is not part of these sources). The reduction becomes a matrix operand of the
element-wise layer: a dense `m x 1` matrix whose entry `i` is the reduction's value
for row `i`. `embed_cost` is the `macc_cost` table of the embedded operand, which is
declared outside these sources. -/
def rowwise_reduce_expr.embed {α ρ : Type} (embed_cost : acc_cate → ker_cate → Int)
    (e : rowwise_reduce_expr (reduction_functor α ρ) α) : IMatrixXpr ρ :=
  { nrows := e.nrows,
    ncolumns := e.ncolumns,
    derived := .leaf (dense_leaf e.nrows (fun i _ => e.value i) embed_cost) }

/-- Modelled from the spec: the product `expr * c` of a matrix expression and a
scalar (`matrix_arith.h` is not part of these sources): the element-wise
multiplication with the second operand fixed, a `binary_fix2nd_ewise_expr` of the
shape of its matrix operand. -/
def mul_fix2 {α : Type} [Mul α] (a : IMatrixXpr α) (c : α) : IMatrixXpr α :=
  { nrows := a.nrows,
    ncolumns := a.ncolumns,
    derived := .binary_fix2nd_ewise_expr (fun x y => x * y) a.derived c }

/-- Modelled from the spec: `math::rcp`, the reciprocal (the math functions are not
part of these sources). -/
def math_rcp {α : Type} [One α] [Div α] (x : α) : α := 1 / x

/-- Function `mean(arg, colwise)`:
`embed(sum(arg, colwise)) * math::rcp(T(arg.nrows()))`. -/
def mean_colwise {α : Type} [Zero α] [Add α] [Mul α] [One α] [Div α] [IntCast α]
    (embed_cost : acc_cate → ker_cate → Int) (arg : IMatrixXpr α) : IMatrixXpr α :=
  mul_fix2 ((sum_colwise arg).embed embed_cost) (math_rcp ((arg.nrows : Int) : α))

/-- Sample 3 x 2 integer matrix with every entry equal to 1. -/
def sample_ones : IMatrixXpr Int :=
  { nrows := 3, ncolumns := 2, derived := .leaf (dense_leaf 3 (fun _ _ => 1) (fun _ _ => 0)) }

/-- The 3 x 2 rational sample matrix as a matrix expression. -/
def sample_Q_xpr : IMatrixXpr ℚ :=
  { nrows := 3, ncolumns := 2, derived := .leaf sample_Q }

/-- Sample leaf with linear cost 50 and per-column cost 0 whose elements are all 7. -/
def sample_cost_leaf_7 : leaf_mat Int :=
  dense_leaf 100 (fun _ _ => 7)
    (fun a _ => match a with
      | .linear_macc => 50
      | _ => 0)

/-- Sample destination with 100 rows and one column, filled with ones. -/
def sample_dest_100_ones : dense_dest Int :=
  { nrows := 100, ncolumns := 1, ct_supports_linear_index := true, data := fun _ _ => 1 }

/-! ## Named partial reductions -/

/-- Modelled from the spec: `embed(expr)` applied to an element-wise matrix expression
(its header is not part of these sources). The expression becomes a matrix operand: a
dense matrix of the same shape whose element `(i, j)` is the expression's value at
`(i, j)`. `embed_cost` is the `macc_cost` table of the embedded operand, which is
declared outside these sources. -/
def IMatrixXpr.embed {α : Type} (embed_cost : acc_cate → ker_cate → Int)
    (x : IMatrixXpr α) : IMatrixXpr α :=
  { nrows := x.nrows,
    ncolumns := x.ncolumns,
    derived := .leaf (dense_leaf x.nrows (fun i j => naive_eval x.derived i j) embed_cost) }

/-- Modelled from the spec: the product `a * b` of two matrix expressions
(`matrix_arith.h` is not part of these sources): the element-wise multiplication, a
`binary_ewise_expr` of the shape of its first operand. -/
def mul_expr {α : Type} [Mul α] (a b : IMatrixXpr α) : IMatrixXpr α :=
  { nrows := a.nrows,
    ncolumns := a.ncolumns,
    derived := .binary_ewise_expr (fun x y => x * y) a.derived b.derived }

/-- Modelled from the spec: the quotient `a / b` of two matrix expressions
(`matrix_arith.h` is not part of these sources): the element-wise division, a
`binary_ewise_expr` of the shape of its first operand. -/
def div_expr {α : Type} [Div α] (a b : IMatrixXpr α) : IMatrixXpr α :=
  { nrows := a.nrows,
    ncolumns := a.ncolumns,
    derived := .binary_ewise_expr (fun x y => x / y) a.derived b.derived }

/-- Modelled from the spec: `math::sqr`, the square (the math functions are not part
of these sources). -/
def math_sqr {α : Type} [Mul α] (x : α) : α := x * x

/-- Modelled from the spec: `sqr(a)` on a matrix expression (its header is not part of
these sources): the element-wise square, a `unary_ewise_expr` of the shape of its
operand. -/
def sqr_expr {α : Type} [Mul α] (a : IMatrixXpr α) : IMatrixXpr α :=
  { nrows := a.nrows,
    ncolumns := a.ncolumns,
    derived := .unary_ewise_expr math_sqr a.derived }

/-- Modelled from the spec: `abs(a)` on a matrix expression (its header is not part of
these sources): the element-wise absolute value, a `unary_ewise_expr` of the shape of
its operand. -/
def abs_expr {α : Type} [Lattice α] [AddGroup α] (a : IMatrixXpr α) : IMatrixXpr α :=
  { nrows := a.nrows,
    ncolumns := a.ncolumns,
    derived := .unary_ewise_expr (fun x => abs x) a.derived }

/-- Modelled from the spec: `sqrt(a)` on a matrix expression (its header is not part
of these sources): the element-wise square root, a `unary_ewise_expr` of the shape of
its operand. The scalar square root `math_sqrt` of the value type is supplied by the
functor layer and is taken as a parameter. -/
def sqrt_expr {α : Type} (math_sqrt : α → α) (a : IMatrixXpr α) : IMatrixXpr α :=
  { nrows := a.nrows,
    ncolumns := a.ncolumns,
    derived := .unary_ewise_expr math_sqrt a.derived }

/-- Modelled from the spec: the functor `maximum_fun<T>` of
`math/reduction_functors.h` (not part of these sources): the maximum, accumulating by
`max`. Its identity `lowest`, the value of `T` below every other, depends on the
value type and is taken as a parameter. -/
def maximum_fun {α : Type} [Max α] (lowest : α) : reduction_functor α α :=
  { identity := lowest, accumulate := fun s x => max s x }

/-- Function `maximum(arg, colwise)`. -/
def maximum_colwise {α : Type} [Max α] (lowest : α) (arg : IMatrixXpr α) :
    colwise_reduce_expr (reduction_functor α α) α :=
  reduce_colwise (maximum_fun lowest) arg

/-- Function `maximum(arg, rowwise)`. -/
def maximum_rowwise {α : Type} [Max α] (lowest : α) (arg : IMatrixXpr α) :
    rowwise_reduce_expr (reduction_functor α α) α :=
  reduce_rowwise (maximum_fun lowest) arg

/-- The expression of the return statement of `mean(arg, rowwise)`:
`embed(sum(arg, rowwise)) * math::rcp(T(arg.ncolumns()))`, a fixed-second-operand
product. -/
def mean_rowwise_return_expr {α : Type} [Zero α] [Add α] [Mul α] [One α] [Div α] [IntCast α]
    (embed_cost : acc_cate → ker_cate → Int) (arg : IMatrixXpr α) : IMatrixXpr α :=
  mul_fix2 ((sum_rowwise arg).embed embed_cost) (math_rcp ((arg.ncolumns : Int) : α))

/-- Function `mean(arg, rowwise)`. Its declared return type is
`rowwise_sum_expr_map<Arg>::type`, the row-wise sum expression class, whereas its
return statement yields the fixed-second-operand product `mean_rowwise_return_expr`
(of the type named by `rowwise_mean_expr_map`, which the declaration does not use). A
`rowwise_reduce_expr` is constructed only from a functor and an argument, so the
product has no conversion to the declared type: the call has no well-formed
instantiation and returns no expression. -/
def mean_rowwise {α : Type} [Zero α] [Add α] [Mul α] [One α] [Div α] [IntCast α]
    (_embed_cost : acc_cate → ker_cate → Int) (_arg : IMatrixXpr α) :
    Option (rowwise_reduce_expr (reduction_functor α α) α) :=
  none

/-- Function `dot(a, b, colwise)`: `sum(embed(a * b), colwise)`. -/
def dot_colwise {α : Type} [Zero α] [Add α] [Mul α]
    (embed_cost : acc_cate → ker_cate → Int) (a b : IMatrixXpr α) :
    colwise_reduce_expr (reduction_functor α α) α :=
  sum_colwise ((mul_expr a b).embed embed_cost)

/-- Function `dot(a, b, rowwise)`: `sum(embed(a * b), rowwise)`. -/
def dot_rowwise {α : Type} [Zero α] [Add α] [Mul α]
    (embed_cost : acc_cate → ker_cate → Int) (a b : IMatrixXpr α) :
    rowwise_reduce_expr (reduction_functor α α) α :=
  sum_rowwise ((mul_expr a b).embed embed_cost)

/-- Function `L1norm(arg, colwise)`: `sum(embed(abs(arg)), colwise)`. -/
def L1norm_colwise {α : Type} [Lattice α] [AddGroup α]
    (embed_cost : acc_cate → ker_cate → Int) (arg : IMatrixXpr α) :
    colwise_reduce_expr (reduction_functor α α) α :=
  sum_colwise ((abs_expr arg).embed embed_cost)

/-- Function `L1norm(arg, rowwise)`: `sum(embed(abs(arg)), rowwise)`. -/
def L1norm_rowwise {α : Type} [Lattice α] [AddGroup α]
    (embed_cost : acc_cate → ker_cate → Int) (arg : IMatrixXpr α) :
    rowwise_reduce_expr (reduction_functor α α) α :=
  sum_rowwise ((abs_expr arg).embed embed_cost)

/-- Function `sqL2norm(arg, colwise)`: `sum(embed(sqr(arg)), colwise)`. -/
def sqL2norm_colwise {α : Type} [Zero α] [Add α] [Mul α]
    (embed_cost : acc_cate → ker_cate → Int) (arg : IMatrixXpr α) :
    colwise_reduce_expr (reduction_functor α α) α :=
  sum_colwise ((sqr_expr arg).embed embed_cost)

/-- Function `sqL2norm(arg, rowwise)`: `sum(embed(sqr(arg)), rowwise)`. -/
def sqL2norm_rowwise {α : Type} [Zero α] [Add α] [Mul α]
    (embed_cost : acc_cate → ker_cate → Int) (arg : IMatrixXpr α) :
    rowwise_reduce_expr (reduction_functor α α) α :=
  sum_rowwise ((sqr_expr arg).embed embed_cost)

/-- Function `L2norm(arg, colwise)`: `sqrt(embed(sqL2norm(arg, colwise)))`. -/
def L2norm_colwise {α : Type} [Zero α] [Add α] [Mul α]
    (embed_cost : acc_cate → ker_cate → Int) (math_sqrt : α → α) (arg : IMatrixXpr α) :
    IMatrixXpr α :=
  sqrt_expr math_sqrt ((sqL2norm_colwise embed_cost arg).embed embed_cost)

/-- Function `L2norm(arg, rowwise)`: `sqrt(embed(sqL2norm(arg, rowwise)))`. -/
def L2norm_rowwise {α : Type} [Zero α] [Add α] [Mul α]
    (embed_cost : acc_cate → ker_cate → Int) (math_sqrt : α → α) (arg : IMatrixXpr α) :
    IMatrixXpr α :=
  sqrt_expr math_sqrt ((sqL2norm_rowwise embed_cost arg).embed embed_cost)

/-- Function `Linfnorm(arg, colwise)`: `maximum(embed(abs(arg)), colwise)`. -/
def Linfnorm_colwise {α : Type} [Lattice α] [AddGroup α]
    (embed_cost : acc_cate → ker_cate → Int) (lowest : α) (arg : IMatrixXpr α) :
    colwise_reduce_expr (reduction_functor α α) α :=
  maximum_colwise lowest ((abs_expr arg).embed embed_cost)

/-- Function `Linfnorm(arg, rowwise)`: `maximum(embed(abs(arg)), rowwise)`. -/
def Linfnorm_rowwise {α : Type} [Lattice α] [AddGroup α]
    (embed_cost : acc_cate → ker_cate → Int) (lowest : α) (arg : IMatrixXpr α) :
    rowwise_reduce_expr (reduction_functor α α) α :=
  maximum_rowwise lowest ((abs_expr arg).embed embed_cost)

/-- Function `nrmdot(a, b, colwise)`:
`embed(dot(a, b, colwise)) / embed(embed(L2norm(a, colwise)) * embed(L2norm(b, colwise)))`. -/
def nrmdot_colwise {α : Type} [Zero α] [Add α] [Mul α] [Div α]
    (embed_cost : acc_cate → ker_cate → Int) (math_sqrt : α → α) (a b : IMatrixXpr α) :
    IMatrixXpr α :=
  div_expr ((dot_colwise embed_cost a b).embed embed_cost)
    ((mul_expr ((L2norm_colwise embed_cost math_sqrt a).embed embed_cost)
      ((L2norm_colwise embed_cost math_sqrt b).embed embed_cost)).embed embed_cost)

/-- Function `nrmdot(a, b, rowwise)`:
`embed(dot(a, b, rowwise)) / embed(embed(L2norm(a, rowwise)) * embed(L2norm(b, rowwise)))`. -/
def nrmdot_rowwise {α : Type} [Zero α] [Add α] [Mul α] [Div α]
    (embed_cost : acc_cate → ker_cate → Int) (math_sqrt : α → α) (a b : IMatrixXpr α) :
    IMatrixXpr α :=
  div_expr ((dot_rowwise embed_cost a b).embed embed_cost)
    ((mul_expr ((L2norm_rowwise embed_cost math_sqrt a).embed embed_cost)
      ((L2norm_rowwise embed_cost math_sqrt b).embed embed_cost)).embed embed_cost)

/-! ## Leaves of an expression tree -/

/-- The `macc_cost` constants of the leaf matrix operands of an expression tree for
one access/kernel category, listed from left to right, one entry per occurrence of a
leaf. -/
def leaf_costs {α : Type} : Xpr α → acc_cate → ker_cate → List Int
  | .leaf mat, a, k => [mat.cost a k]
  | .unary_ewise_expr _ arg, a, k => leaf_costs arg a k
  | .binary_ewise_expr _ arg1 arg2, a, k => leaf_costs arg1 a k ++ leaf_costs arg2 a k
  | .binary_fix1st_ewise_expr _ _ arg2, a, k => leaf_costs arg2 a k
  | .binary_fix2nd_ewise_expr _ arg1 _, a, k => leaf_costs arg1 a k

/-- Sample 2 x 2 integer matrix `[[1, -2], [-3, 4]]` (rows listed). -/
def sample_A : IMatrixXpr Int :=
  { nrows := 2, ncolumns := 2,
    derived := .leaf (dense_leaf 2 (fun i j => if i = j then 3 * i + 1 else -(3 * i + 2 * j))
      (fun _ _ => 0)) }

/-- Sample 2 x 2 integer matrix `[[5, 6], [7, 8]]` (rows listed). -/
def sample_B : IMatrixXpr Int :=
  { nrows := 2, ncolumns := 2,
    derived := .leaf (dense_leaf 2 (fun i j => 2 * i + j + 5) (fun _ _ => 0)) }

/-- Sample 2 x 2 rational matrix `[[1, 2], [3, 4]]` (rows listed). -/
def sample_M : IMatrixXpr ℚ :=
  { nrows := 2, ncolumns := 2,
    derived := .leaf (dense_leaf 2 (fun i j => 2 * (i : ℚ) + (j : ℚ) + 1) (fun _ _ => 0)) }

/-- Sample leaf with cost 3 for linear access and 5 otherwise. -/
def sample_leaf_3_5 : leaf_mat Int :=
  dense_leaf 2 (fun _ _ => 0)
    (fun a _ => match a with
      | .linear_macc => 3
      | _ => 5)

/-- Sample expression tree with three leaf occurrences, using all four node classes. -/
def sample_cost_expr : Xpr Int :=
  .binary_ewise_expr (fun x y => x + y)
    (.unary_ewise_expr (fun x => x * x) (.leaf sample_leaf_3_5))
    (.binary_ewise_expr (fun x y => x * y)
      (.binary_fix2nd_ewise_expr (fun x y => x - y) (.leaf sample_cost_leaf) 3)
      (.binary_fix1st_ewise_expr (fun x y => x - y) 7 (.leaf sample_leaf_3_5)))

/-- Sample expression tree with the same leaves in another order, other operators and
another nesting. -/
def sample_cost_expr_2 : Xpr Int :=
  .binary_ewise_expr (fun x y => x - y)
    (.binary_ewise_expr (fun x y => x + y) (.leaf sample_cost_leaf) (.leaf sample_leaf_3_5))
    (.unary_ewise_expr (fun x => -x) (.unary_ewise_expr (fun x => x + 1)
      (.leaf sample_leaf_3_5)))

/-- Sample dense `m x n` matrix expression with element `(i, j)` equal to `f i j`
and cost 0. -/
def dense_xpr {α : Type} (m n : Int) (f : Int → Int → α) : IMatrixXpr α :=
  { nrows := m, ncolumns := n, derived := .leaf (dense_leaf m f (fun _ _ => 0)) }

/-! ## Guarded leaf lookups and replacement of leaves -/

/-- Method `get_scalar(i)` of the linear scalar accessors when a leaf lookup is
defined only at the indices accepted by `dom` (the valid range of the leaves): a leaf
queried outside `dom` yields no value, and a node yields its functor's result when
each of the operand accessors it queries yields a value. -/
def linear_accessor.get_scalar_in {α : Type} (dom : Int → Bool) :
    linear_accessor α → Int → Option α
  | .leaf get, i => if dom i then some (get i) else none
  | .unary_ewise_accessor m_fun m_arg_acc, i => (m_arg_acc.get_scalar_in dom i).map m_fun
  | .binary_ewise_accessor m_fun m_arg1_acc m_arg2_acc, i =>
      (m_arg1_acc.get_scalar_in dom i).bind fun x =>
        (m_arg2_acc.get_scalar_in dom i).map fun y => m_fun x y
  | .binary_fix1st_ewise_accessor m_fun m_arg1v m_arg2_acc, i =>
      (m_arg2_acc.get_scalar_in dom i).map fun y => m_fun m_arg1v y
  | .binary_fix2nd_ewise_accessor m_fun m_arg1_acc m_arg2v, i =>
      (m_arg1_acc.get_scalar_in dom i).map fun x => m_fun x m_arg2v

/-- The expression tree with every leaf matrix `L` replaced by `F L`; operators,
fixed scalar operands and nesting are kept. -/
def map_leaves (F : (α : Type) → leaf_mat α → leaf_mat α) {α : Type} : Xpr α → Xpr α
  | .leaf mat => .leaf (F _ mat)
  | .unary_ewise_expr op arg => .unary_ewise_expr op (map_leaves F arg)
  | .binary_ewise_expr op a b => .binary_ewise_expr op (map_leaves F a) (map_leaves F b)
  | .binary_fix1st_ewise_expr op v b => .binary_fix1st_ewise_expr op v (map_leaves F b)
  | .binary_fix2nd_ewise_expr op a v => .binary_fix2nd_ewise_expr op (map_leaves F a) v

/-- The replacement `F` leaves the linear element `i` of every leaf of the tree as it
was (it may change the leaves' elements at other indices). -/
def leaves_fixed_at (F : (α : Type) → leaf_mat α → leaf_mat α) (i : Int) {α : Type} :
    Xpr α → Prop
  | .leaf mat => (F _ mat).linear_get_scalar i = mat.linear_get_scalar i
  | .unary_ewise_expr _ arg => leaves_fixed_at F i arg
  | .binary_ewise_expr _ a b => leaves_fixed_at F i a ∧ leaves_fixed_at F i b
  | .binary_fix1st_ewise_expr _ _ b => leaves_fixed_at F i b
  | .binary_fix2nd_ewise_expr _ a _ => leaves_fixed_at F i a

/-- Sample replacement of leaves: the linear element 4 is kept, every other linear
element `k` is overwritten by the old element `k + 1`. -/
def sample_leaf_change : (α : Type) → leaf_mat α → leaf_mat α :=
  fun _ L =>
    { L with
      linear_get_scalar := fun k =>
        if k = 4 then L.linear_get_scalar k else L.linear_get_scalar (k + 1) }

/-- Sample destination with 100 rows and 5000 columns. -/
def sample_dest_100_wide : dense_dest ℚ :=
  { nrows := 100, ncolumns := 5000, ct_supports_linear_index := true, data := fun _ _ => 0 }

/-! ## Scalars with a non-number -/

/-- Value type of an arithmetic in which a division by zero has no numeric result:
`num x` is the number `x`, `nan` is a result that is not a number (what the
arithmetic of doubles reports as NaN or as an infinity). A non-number operand makes
the result a non-number. Rounding is not part of this type. -/
inductive with_nan (α : Type) where
  | num (x : α)
  | nan

/-- Sum of two scalars. -/
def with_nan.add {α : Type} [Add α] : with_nan α → with_nan α → with_nan α
  | .num x, .num y => .num (x + y)
  | _, _ => .nan

/-- Product of two scalars. -/
def with_nan.mul {α : Type} [Mul α] : with_nan α → with_nan α → with_nan α
  | .num x, .num y => .num (x * y)
  | _, _ => .nan

/-- Quotient of two scalars: not a number when the divisor is zero. -/
def with_nan.div {α : Type} [Zero α] [DecidableEq α] [Div α] :
    with_nan α → with_nan α → with_nan α
  | .num x, .num y => if y = 0 then .nan else .num (x / y)
  | _, _ => .nan

/-- Square root of a scalar, given the square root `s` of the non-negative numbers:
not a number when the operand is negative. -/
def with_nan.sqrt {α : Type} [Zero α] [LE α] [DecidableRel (fun x y : α => x ≤ y)]
    (s : α → α) : with_nan α → with_nan α
  | .num x => if 0 ≤ x then .num (s x) else .nan
  | .nan => .nan

instance with_nan.instZero {α : Type} [Zero α] : Zero (with_nan α) := ⟨.num 0⟩

instance with_nan.instAdd {α : Type} [Add α] : Add (with_nan α) := ⟨with_nan.add⟩

instance with_nan.instMul {α : Type} [Mul α] : Mul (with_nan α) := ⟨with_nan.mul⟩

instance with_nan.instDiv {α : Type} [Zero α] [DecidableEq α] [Div α] : Div (with_nan α) :=
  ⟨with_nan.div⟩

/-! ## Auxiliary lemmas -/

theorem linear_get_scalar_eq_naive {α : Type} (e : Xpr α) (i : Int) :
    (make_linear_accessor e).get_scalar i = naive_eval_linear e i := by
  induction e with
  | leaf mat => rfl
  | unary_ewise_expr op arg ih =>
      simp only [make_linear_accessor, linear_accessor.get_scalar, naive_eval_linear, ih]
  | binary_ewise_expr op a b iha ihb =>
      simp only [make_linear_accessor, linear_accessor.get_scalar, naive_eval_linear, iha, ihb]
  | binary_fix1st_ewise_expr op v b ih =>
      simp only [make_linear_accessor, linear_accessor.get_scalar, naive_eval_linear, ih]
  | binary_fix2nd_ewise_expr op a v ih =>
      simp only [make_linear_accessor, linear_accessor.get_scalar, naive_eval_linear, ih]

theorem naive_linear_eq_naive {α : Type} (m : Int) (e : Xpr α) (i j : Int)
    (h : linear_leaves_ok m e i j) : naive_eval_linear e (j * m + i) = naive_eval e i j := by
  induction e with
  | leaf mat => exact h
  | unary_ewise_expr op arg ih =>
      simp only [naive_eval_linear, naive_eval, ih h]
  | binary_ewise_expr op a b iha ihb =>
      simp only [naive_eval_linear, naive_eval, iha h.1, ihb h.2]
  | binary_fix1st_ewise_expr op v b ih =>
      simp only [naive_eval_linear, naive_eval, ih h]
  | binary_fix2nd_ewise_expr op a v ih =>
      simp only [naive_eval_linear, naive_eval, ih h]

theorem percol_get_scalar_eq_naive {α : Type} (e : Xpr α) (i j : Int)
    (h : percol_leaves_ok e i j) :
    (make_percol_accessor e).get_scalar i ((make_percol_accessor e).col_state j)
      = naive_eval e i j := by
  induction e with
  | leaf mat => exact h
  | unary_ewise_expr op arg ih =>
      show op _ = op _
      rw [← ih h]
      rfl
  | binary_ewise_expr op a b iha ihb =>
      show op _ _ = op _ _
      rw [← iha h.1, ← ihb h.2]
      rfl
  | binary_fix1st_ewise_expr op v b ih =>
      show op _ _ = op _ _
      rw [← ih h]
      rfl
  | binary_fix2nd_ewise_expr op a v ih =>
      show op _ _ = op _ _
      rw [← ih h]
      rfl


theorem emod_ediv_eq_iff (m N i j : Int) (hm : 0 < m) :
    (N % m = i ∧ N / m = j) ↔ (0 ≤ i ∧ i < m ∧ j * m + i = N) := by
  constructor
  · rintro ⟨h1, h2⟩
    have h3 := Int.emod_add_ediv N m
    have h4 := Int.emod_nonneg N (ne_of_gt hm)
    have h5 := Int.emod_lt_of_pos N hm
    subst h1 h2
    refine ⟨h4, h5, ?_⟩
    rw [mul_comm]
    omega
  · rintro ⟨h1, h2, h3⟩
    subst h3
    constructor
    · rw [add_comm, Int.add_mul_emod_self]
      exact Int.emod_eq_of_lt h1 h2
    · rw [add_comm, Int.add_mul_ediv_right _ _ (ne_of_gt hm), Int.ediv_eq_zero_of_lt h1 h2]
      simp

theorem write_data {α : Type} (d : dense_dest α) (i j : Int) (v : α) (i' j' : Int) :
    (d.write i j v).data i' j' = if i' = i ∧ j' = j then v else d.data i' j' := rfl

theorem write_linear_data {α : Type} (d : dense_dest α) (k : Int) (v : α)
    (i' j' : Int) :
    (d.write_linear k v).data i' j'
      = if i' = k % d.nrows ∧ j' = k / d.nrows then v else d.data i' j' := rfl

theorem write_linear_loop {α : Type} (g : Int → α) (d : dense_dest α) (hm : 0 < d.nrows)
    (N : Nat) :
    ((List.range N).foldl (fun (d : dense_dest α) (k : Nat) => d.write_linear (k : Int) (g (k : Int))) d).nrows
        = d.nrows ∧
    ((List.range N).foldl (fun (d : dense_dest α) (k : Nat) => d.write_linear (k : Int) (g (k : Int))) d).ncolumns
        = d.ncolumns ∧
    ((List.range N).foldl
        (fun (d : dense_dest α) (k : Nat) => d.write_linear (k : Int) (g (k : Int))) d).ct_supports_linear_index
        = d.ct_supports_linear_index ∧
    ∀ i j : Int,
      ((List.range N).foldl (fun (d : dense_dest α) (k : Nat) => d.write_linear (k : Int) (g (k : Int))) d).data i j
        = if 0 ≤ i ∧ i < d.nrows ∧ 0 ≤ j * d.nrows + i ∧ j * d.nrows + i < (N : Int)
          then g (j * d.nrows + i) else d.data i j := by
  induction N with
  | zero =>
      refine ⟨rfl, rfl, rfl, ?_⟩
      intro i j
      have : ¬ (0 ≤ i ∧ i < d.nrows ∧ 0 ≤ j * d.nrows + i ∧ j * d.nrows + i < ((0 : Nat) : Int)) := by
        omega
      simp only [List.range_zero, List.foldl_nil, if_neg this]
  | succ N ih =>
      obtain ⟨h1, h2, h3, h4⟩ := ih
      rw [List.range_succ, List.foldl_append]
      simp only [List.foldl_cons, List.foldl_nil]
      refine ⟨h1, h2, h3, ?_⟩
      intro i j
      rw [write_linear_data, h1, h4]
      have key := emod_ediv_eq_iff d.nrows (N : Int) i j hm
      by_cases hc : i = (N : Int) % d.nrows ∧ j = (N : Int) / d.nrows
      · have hk : 0 ≤ i ∧ i < d.nrows ∧ j * d.nrows + i = (N : Int) :=
          key.mp ⟨hc.1.symm, hc.2.symm⟩
        have hcond : 0 ≤ i ∧ i < d.nrows ∧ 0 ≤ j * d.nrows + i ∧
            j * d.nrows + i < ((N + 1 : Nat) : Int) := by
          refine ⟨hk.1, hk.2.1, ?_, ?_⟩ <;> push_cast <;> omega
        rw [if_pos hc, if_pos hcond, hk.2.2]
      · have hne : ¬ (j * d.nrows + i = (N : Int) ∧ 0 ≤ i ∧ i < d.nrows) := by
          rintro ⟨hx, hy, hz⟩
          have := key.mpr ⟨hy, hz, hx⟩
          exact hc ⟨this.1.symm, this.2.symm⟩
        rw [if_neg hc]
        by_cases hd : 0 ≤ i ∧ i < d.nrows ∧ 0 ≤ j * d.nrows + i ∧ j * d.nrows + i < (N : Int)
        · have hd2 : 0 ≤ i ∧ i < d.nrows ∧ 0 ≤ j * d.nrows + i ∧
              j * d.nrows + i < ((N + 1 : Nat) : Int) := by
            refine ⟨hd.1, hd.2.1, hd.2.2.1, ?_⟩
            push_cast
            omega
          rw [if_pos hd, if_pos hd2]
        · have hd2 : ¬ (0 ≤ i ∧ i < d.nrows ∧ 0 ≤ j * d.nrows + i ∧
              j * d.nrows + i < ((N + 1 : Nat) : Int)) := by
            rintro ⟨a1, a2, a3, a4⟩
            push_cast at a4
            by_cases he : j * d.nrows + i = (N : Int)
            · exact hne ⟨he, a1, a2⟩
            · exact hd ⟨a1, a2, a3, by omega⟩
          rw [if_neg hd, if_neg hd2]

theorem write_column_loop {α : Type} (h : Int → α) (j : Int) (d : dense_dest α) (M : Nat) :
    ((List.range M).foldl (fun (d : dense_dest α) (i : Nat) => d.write (i : Int) j (h (i : Int))) d).nrows
        = d.nrows ∧
    ((List.range M).foldl (fun (d : dense_dest α) (i : Nat) => d.write (i : Int) j (h (i : Int))) d).ncolumns
        = d.ncolumns ∧
    ((List.range M).foldl
        (fun (d : dense_dest α) (i : Nat) => d.write (i : Int) j (h (i : Int))) d).ct_supports_linear_index
        = d.ct_supports_linear_index ∧
    ∀ i' j' : Int,
      ((List.range M).foldl (fun (d : dense_dest α) (i : Nat) => d.write (i : Int) j (h (i : Int))) d).data i' j'
        = if j' = j ∧ 0 ≤ i' ∧ i' < (M : Int) then h i' else d.data i' j' := by
  induction M with
  | zero =>
      refine ⟨rfl, rfl, rfl, ?_⟩
      intro i' j'
      have : ¬ (j' = j ∧ 0 ≤ i' ∧ i' < ((0 : Nat) : Int)) := by omega
      simp only [List.range_zero, List.foldl_nil, if_neg this]
  | succ M ih =>
      obtain ⟨h1, h2, h3, h4⟩ := ih
      rw [List.range_succ, List.foldl_append]
      simp only [List.foldl_cons, List.foldl_nil]
      refine ⟨h1, h2, h3, ?_⟩
      intro i' j'
      rw [write_data, h4]
      by_cases hc : i' = (M : Int) ∧ j' = j
      · have hcond : j' = j ∧ 0 ≤ i' ∧ i' < ((M + 1 : Nat) : Int) := by
          refine ⟨hc.2, ?_, ?_⟩ <;> push_cast <;> omega
        rw [if_pos hc, if_pos hcond, hc.1]
      · rw [if_neg hc]
        by_cases hd : j' = j ∧ 0 ≤ i' ∧ i' < (M : Int)
        · have hd2 : j' = j ∧ 0 ≤ i' ∧ i' < ((M + 1 : Nat) : Int) := by
            refine ⟨hd.1, hd.2.1, ?_⟩
            push_cast
            omega
          rw [if_pos hd, if_pos hd2]
        · have hd2 : ¬ (j' = j ∧ 0 ≤ i' ∧ i' < ((M + 1 : Nat) : Int)) := by
            rintro ⟨a1, a2, a3⟩
            push_cast at a3
            by_cases he : i' = (M : Int)
            · exact hc ⟨he, a1⟩
            · exact hd ⟨a1, a2, by omega⟩
          rw [if_neg hd, if_neg hd2]


theorem write_percol_loop {α : Type} (H : Int → Int → α) (d : dense_dest α) (M N : Nat) :
    ((List.range N).foldl (fun (d : dense_dest α) (j : Nat) =>
        (List.range M).foldl (fun (d : dense_dest α) (i : Nat) =>
          d.write (i : Int) (j : Int) (H i j)) d) d).nrows
        = d.nrows ∧
    ((List.range N).foldl (fun (d : dense_dest α) (j : Nat) =>
        (List.range M).foldl (fun (d : dense_dest α) (i : Nat) =>
          d.write (i : Int) (j : Int) (H i j)) d) d).ncolumns
        = d.ncolumns ∧
    ((List.range N).foldl (fun (d : dense_dest α) (j : Nat) =>
        (List.range M).foldl (fun (d : dense_dest α) (i : Nat) =>
          d.write (i : Int) (j : Int) (H i j)) d)
          d).ct_supports_linear_index
        = d.ct_supports_linear_index ∧
    ∀ i' j' : Int,
      ((List.range N).foldl (fun (d : dense_dest α) (j : Nat) =>
        (List.range M).foldl (fun (d : dense_dest α) (i : Nat) =>
          d.write (i : Int) (j : Int) (H i j)) d) d).data i' j'
        = if 0 ≤ i' ∧ i' < (M : Int) ∧ 0 ≤ j' ∧ j' < (N : Int) then H i' j'
          else d.data i' j' := by
  induction N with
  | zero =>
      refine ⟨rfl, rfl, rfl, ?_⟩
      intro i' j'
      have : ¬ (0 ≤ i' ∧ i' < (M : Int) ∧ 0 ≤ j' ∧ j' < ((0 : Nat) : Int)) := by omega
      simp only [List.range_zero, List.foldl_nil, if_neg this]
  | succ N ih =>
      obtain ⟨h1, h2, h3, h4⟩ := ih
      rw [List.range_succ, List.foldl_append]
      simp only [List.foldl_cons, List.foldl_nil]
      obtain ⟨c1, c2, c3, c4⟩ := write_column_loop (fun i => H i (N : Int)) (N : Int)
        ((List.range N).foldl (fun (d : dense_dest α) (j : Nat) =>
          (List.range M).foldl (fun (d : dense_dest α) (i : Nat) =>
            d.write (i : Int) (j : Int) (H i j)) d) d) M
      refine ⟨c1.trans h1, c2.trans h2, c3.trans h3, ?_⟩
      intro i' j'
      rw [c4, h4]
      by_cases hc : j' = (N : Int) ∧ 0 ≤ i' ∧ i' < (M : Int)
      · have hcond : 0 ≤ i' ∧ i' < (M : Int) ∧ 0 ≤ j' ∧ j' < ((N + 1 : Nat) : Int) := by
          refine ⟨hc.2.1, hc.2.2, ?_, ?_⟩ <;> push_cast <;> omega
        rw [if_pos hc, if_pos hcond, hc.1]
      · rw [if_neg hc]
        by_cases hd : 0 ≤ i' ∧ i' < (M : Int) ∧ 0 ≤ j' ∧ j' < (N : Int)
        · have hd2 : 0 ≤ i' ∧ i' < (M : Int) ∧ 0 ≤ j' ∧ j' < ((N + 1 : Nat) : Int) := by
            refine ⟨hd.1, hd.2.1, hd.2.2.1, ?_⟩
            push_cast
            omega
          rw [if_pos hd, if_pos hd2]
        · have hd2 : ¬ (0 ≤ i' ∧ i' < (M : Int) ∧ 0 ≤ j' ∧ j' < ((N + 1 : Nat) : Int)) := by
            rintro ⟨a1, a2, a3, a4⟩
            push_cast at a4
            by_cases he : j' = (N : Int)
            · exact hc ⟨he, a1, a2⟩
            · exact hd ⟨a1, a2, a3, by omega⟩
          rw [if_neg hd, if_neg hd2]

theorem in_range_linear_iff (m n i j : Int) (hm : 0 < m) (hi : 0 ≤ i) (hi2 : i < m) :
    (0 ≤ j * m + i ∧ j * m + i < m * n) ↔ (0 ≤ j ∧ j < n) := by
  constructor
  · rintro ⟨h1, h2⟩
    constructor
    · by_contra hj
      have : j + 1 ≤ 0 := by omega
      nlinarith
    · by_contra hj
      have : n ≤ j := by omega
      nlinarith
  · rintro ⟨h1, h2⟩
    constructor
    · nlinarith
    · have : j + 1 ≤ n := by omega
      nlinarith

theorem macc_eval_linear_scalar_evaluate_spec {α : Type} (e : Xpr α) (d : dense_dest α)
    (n : Int) (hm : 0 ≤ d.nrows) (hn : 0 ≤ n) :
    (macc_eval_linear_scalar_evaluate (d.nrows * n) e d).nrows = d.nrows ∧
    (macc_eval_linear_scalar_evaluate (d.nrows * n) e d).ncolumns = d.ncolumns ∧
    (macc_eval_linear_scalar_evaluate (d.nrows * n) e d).ct_supports_linear_index
      = d.ct_supports_linear_index ∧
    ∀ i j : Int,
      (macc_eval_linear_scalar_evaluate (d.nrows * n) e d).data i j
        = if 0 ≤ i ∧ i < d.nrows ∧ 0 ≤ j ∧ j < n
          then (make_linear_accessor e).get_scalar (j * d.nrows + i) else d.data i j := by
  rcases eq_or_lt_of_le hm with h0 | hpos
  · have hz : (d.nrows * n).toNat = 0 := by rw [← h0]; simp
    have hd : macc_eval_linear_scalar_evaluate (d.nrows * n) e d = d := by
      unfold macc_eval_linear_scalar_evaluate
      simp only [hz, List.range_zero, List.foldl_nil]
    rw [hd]
    refine ⟨rfl, rfl, rfl, ?_⟩
    intro i j
    have : ¬ (0 ≤ i ∧ i < d.nrows ∧ 0 ≤ j ∧ j < n) := by
      rintro ⟨a1, a2, _, _⟩
      omega
    rw [if_neg this]
  · obtain ⟨h1, h2, h3, h4⟩ := write_linear_loop
      (fun k => (make_linear_accessor e).get_scalar k) d hpos (d.nrows * n).toNat
    refine ⟨h1, h2, h3, ?_⟩
    intro i j
    have hN : (((d.nrows * n).toNat : Nat) : Int) = d.nrows * n :=
      Int.toNat_of_nonneg (mul_nonneg hm hn)
    have h5 := h4 i j
    rw [hN] at h5
    refine h5.trans ?_
    by_cases hi : 0 ≤ i ∧ i < d.nrows
    · have key := in_range_linear_iff d.nrows n i j hpos hi.1 hi.2
      by_cases hj : 0 ≤ j ∧ j < n
      · rw [if_pos ⟨hi.1, hi.2, key.mpr hj⟩, if_pos ⟨hi.1, hi.2, hj⟩]
      · rw [if_neg (fun hx => hj (key.mp hx.2.2)), if_neg (fun hx => hj hx.2.2)]
    · rw [if_neg (fun hx => hi ⟨hx.1, hx.2.1⟩), if_neg (fun hx => hi ⟨hx.1, hx.2.1⟩)]

theorem macc_eval_percol_scalar_evaluate_spec {α : Type} (e : Xpr α) (d : dense_dest α)
    (m n : Int) (hm : 0 ≤ m) (hn : 0 ≤ n) :
    (macc_eval_percol_scalar_evaluate m n e d).nrows = d.nrows ∧
    (macc_eval_percol_scalar_evaluate m n e d).ncolumns = d.ncolumns ∧
    (macc_eval_percol_scalar_evaluate m n e d).ct_supports_linear_index
      = d.ct_supports_linear_index ∧
    ∀ i j : Int,
      (macc_eval_percol_scalar_evaluate m n e d).data i j
        = if 0 ≤ i ∧ i < m ∧ 0 ≤ j ∧ j < n
          then (make_percol_accessor e).get_scalar i ((make_percol_accessor e).col_state j)
          else d.data i j := by
  obtain ⟨h1, h2, h3, h4⟩ := write_percol_loop
    (fun i j => (make_percol_accessor e).get_scalar i ((make_percol_accessor e).col_state j))
    d m.toNat n.toNat
  refine ⟨h1, h2, h3, ?_⟩
  intro i j
  have h5 := h4 i j
  rw [Int.toNat_of_nonneg hm, Int.toNat_of_nonneg hn] at h5
  exact h5


theorem dense_leaf_linear_ok {α : Type} (m : Int) (f : Int → Int → α)
    (c : acc_cate → ker_cate → Int) (i j : Int) (hi : 0 ≤ i) (hi2 : i < m) :
    (dense_leaf m f c).linear_get_scalar (j * m + i) = (dense_leaf m f c).elem i j := by
  have hm : 0 < m := lt_of_le_of_lt hi hi2
  obtain ⟨h1, h2⟩ := (emod_ediv_eq_iff m (j * m + i) i j hm).mpr ⟨hi, hi2, rfl⟩
  show f ((j * m + i) % m) ((j * m + i) / m) = f i j
  rw [h1, h2]

theorem dense_leaf_percol_ok {α : Type} (m : Int) (f : Int → Int → α)
    (c : acc_cate → ker_cate → Int) (i j : Int) :
    (dense_leaf m f c).percol_get_scalar i ((dense_leaf m f c).col_state j)
      = (dense_leaf m f c).elem i j := rfl

theorem sample_expr_leaves_ok (i j : Int) (hi : 0 ≤ i) (hi2 : i < 3) :
    linear_leaves_ok 3 sample_expr i j ∧ percol_leaves_ok sample_expr i j :=
  ⟨⟨dense_leaf_linear_ok 3 _ _ i j hi hi2, dense_leaf_linear_ok 3 _ _ i j hi hi2⟩,
    ⟨rfl, rfl⟩⟩

theorem any_scalar_evaluate_data {α : Type} (s : macc_scheme_any_scalar) (e : Xpr α)
    (d : dense_dest α) (hm : 0 ≤ s.shape.nrows) (hn : 0 ≤ s.shape.ncolumns)
    (hd : d.nrows = s.shape.nrows)
    (hleaf : ∀ i j : Int, 0 ≤ i → i < s.shape.nrows → 0 ≤ j → j < s.shape.ncolumns →
      linear_leaves_ok s.shape.nrows e i j ∧ percol_leaves_ok e i j) :
    (s.evaluate e d).nrows = d.nrows ∧ (s.evaluate e d).ncolumns = d.ncolumns ∧
    (s.evaluate e d).ct_supports_linear_index = d.ct_supports_linear_index ∧
    ∀ i j : Int, (s.evaluate e d).data i j
      = if 0 ≤ i ∧ i < s.shape.nrows ∧ 0 ≤ j ∧ j < s.shape.ncolumns
        then naive_eval e i j else d.data i j := by
  unfold macc_scheme_any_scalar.evaluate
  by_cases hl : s._use_linear = true
  · rw [if_pos hl]
    have hnel : s.shape.nelems = d.nrows * s.shape.ncolumns := by
      rw [hd]
      rfl
    rw [hnel]
    obtain ⟨h1, h2, h3, h4⟩ :=
      macc_eval_linear_scalar_evaluate_spec e d s.shape.ncolumns (hd ▸ hm) hn
    refine ⟨h1, h2, h3, ?_⟩
    intro i j
    rw [h4, hd]
    by_cases hc : 0 ≤ i ∧ i < s.shape.nrows ∧ 0 ≤ j ∧ j < s.shape.ncolumns
    · rw [if_pos hc, if_pos hc, linear_get_scalar_eq_naive]
      exact naive_linear_eq_naive _ e i j (hleaf i j hc.1 hc.2.1 hc.2.2.1 hc.2.2.2).1
    · rw [if_neg hc, if_neg hc]
  · rw [if_neg hl]
    obtain ⟨h1, h2, h3, h4⟩ :=
      macc_eval_percol_scalar_evaluate_spec e d s.shape.nrows s.shape.ncolumns hm hn
    refine ⟨h1, h2, h3, ?_⟩
    intro i j
    rw [h4]
    by_cases hc : 0 ≤ i ∧ i < s.shape.nrows ∧ 0 ≤ j ∧ j < s.shape.ncolumns
    · rw [if_pos hc, if_pos hc]
      exact percol_get_scalar_eq_naive e i j (hleaf i j hc.1 hc.2.1 hc.2.2.1 hc.2.2.2).2
    · rw [if_neg hc, if_neg hc]

theorem dense_dest_ext {α : Type} (a b : dense_dest α) (h1 : a.nrows = b.nrows)
    (h2 : a.ncolumns = b.ncolumns)
    (h3 : a.ct_supports_linear_index = b.ct_supports_linear_index)
    (h4 : ∀ i j : Int, a.data i j = b.data i j) : a = b := by
  cases a
  cases b
  simp only [dense_dest.mk.injEq]
  exact ⟨h1, h2, h3, funext fun i => funext fun j => h4 i j⟩

theorem assign_data {α : Type} (e : Xpr α) (D : dense_dest α) (i j : Int)
    (hi : 0 ≤ i) (hi2 : i < D.nrows) (hj : 0 ≤ j) (hj2 : j < D.ncolumns)
    (hlin : linear_leaves_ok D.nrows e i j) (hcol : percol_leaves_ok e i j) :
    (assign D e).data i j = naive_eval e i j := by
  have hm : 0 ≤ D.nrows := le_of_lt (lt_of_le_of_lt hi hi2)
  have hn : 0 ≤ D.ncolumns := le_of_lt (lt_of_le_of_lt hj hj2)
  have hc : 0 ≤ i ∧ i < D.nrows ∧ 0 ≤ j ∧ j < D.ncolumns := ⟨hi, hi2, hj, hj2⟩
  unfold assign get_default_eval_scheme default_macc_scheme_get
  by_cases hs : D.ct_supports_linear_index = true
  · rw [if_pos hs]
    show ((macc_scheme_any_scalar.get_default e D).evaluate e D).data i j = _
    unfold macc_scheme_any_scalar.evaluate
    by_cases hl : (macc_scheme_any_scalar.get_default e D)._use_linear = true
    · rw [if_pos hl]
      obtain ⟨_, _, _, h4⟩ := macc_eval_linear_scalar_evaluate_spec e D D.ncolumns hm hn
      have h5 := h4 i j
      rw [if_pos hc, linear_get_scalar_eq_naive, naive_linear_eq_naive _ e i j hlin] at h5
      exact h5
    · rw [if_neg hl]
      obtain ⟨_, _, _, h4⟩ :=
        macc_eval_percol_scalar_evaluate_spec e D D.nrows D.ncolumns hm hn
      have h5 := h4 i j
      rw [if_pos hc, percol_get_scalar_eq_naive e i j hcol] at h5
      exact h5
  · rw [if_neg hs]
    obtain ⟨_, _, _, h4⟩ :=
      macc_eval_percol_scalar_evaluate_spec e D D.nrows D.ncolumns hm hn
    have h5 := h4 i j
    rw [if_pos hc, percol_get_scalar_eq_naive e i j hcol] at h5
    exact h5

theorem int_add_eq_of_in_range (a b : Int) (h1 : -2147483648 ≤ a + b)
    (h2 : a + b < 2147483648) : int_add a b = a + b := by
  unfold int_add int32_wrap
  omega

theorem get_default_use_linear_iff {α β : Type} (e : Xpr α) (d : dense_dest β) :
    (macc_scheme_any_scalar.get_default e d).use_linear = true ↔
      macc_cost e .linear_macc .scalar_kernel_t ≤
        (if d.nrows ≤ 100
          then int_add (macc_cost e .percol_macc .scalar_kernel_t) 100
          else macc_cost e .percol_macc .scalar_kernel_t) := by
  simp only [macc_scheme_any_scalar.get_default, macc_scheme_any_scalar.use_linear,
    MACC_SHORT_PERCOL_COST, decide_eq_true_eq]


/-! ## Element-wise accessors against the naive evaluation -/

/-- C1: for every expression tree built from unary, binary, fixed-first and
fixed-second element-wise nodes over leaf matrices and every linear index `i` (in
particular every `i` in `[0, nelems)`), `get_scalar(i)` of the linear scalar accessor
built from the tree equals the naive recursive evaluation of the tree at `i`. -/
theorem C1_linear_get_scalar_eq_naive {α : Type} (e : Xpr α) (i : Int) :
    (make_linear_accessor e).get_scalar i = naive_eval_linear e i :=
  linear_get_scalar_eq_naive e i

/-- C2: for every expression tree, every column `j` and every row `i`,
`get_scalar(i, col_state(j))` of the per-column scalar accessor built from the tree
equals the naive recursive evaluation of the tree at position `(i, j)`, provided each
leaf's per-column accessor returns the leaf's element `(i, j)` from its own
`col_state(j)`. -/
theorem C2_percol_get_scalar_eq_naive {α : Type} (e : Xpr α) (i j : Int)
    (hleaf : percol_leaves_ok e i j) :
    (make_percol_accessor e).get_scalar i ((make_percol_accessor e).col_state j)
      = naive_eval e i j :=
  percol_get_scalar_eq_naive e i j hleaf

/-- Worked instance of C2 on the sample expression at row 1 of column 1, where the
value is `(10 * 1 + 1)^2 + ((7 - (1 * 1 + 1)) - 3) = 123`. -/
theorem C2_percol_get_scalar_eq_naive_witness :
    percol_leaves_ok sample_expr 1 1 ∧
    (make_percol_accessor sample_expr).get_scalar 1
        ((make_percol_accessor sample_expr).col_state 1) = naive_eval sample_expr 1 1 ∧
    naive_eval sample_expr 1 1 = 123 :=
  ⟨⟨rfl, rfl⟩, C2_percol_get_scalar_eq_naive sample_expr 1 1 ⟨rfl, rfl⟩, by decide⟩

/-! ## Evaluation into a destination -/

/-- C3: scheme choice never changes the result. For every expression and every
destination with `m` rows (`m, n` non-negative), given leaves whose linear element
`j * m + i` is their element `(i, j)` and whose per-column accessor returns that same
element, `macc_scheme<any_macc, scalar_kernel_t>::evaluate` leaves the same
destination when `_use_linear` is true (linear traversal over `m * n` indices) as
when it is false (column-by-column traversal). -/
theorem C3_scheme_choice_same_result {α : Type} (e : Xpr α) (d : dense_dest α) (m n : Int)
    (hm : 0 ≤ m) (hn : 0 ≤ n) (hd : d.nrows = m)
    (hleaf : ∀ i j : Int, 0 ≤ i → i < m → 0 ≤ j → j < n →
      linear_leaves_ok m e i j ∧ percol_leaves_ok e i j) :
    macc_scheme_any_scalar.evaluate
        { shape := { nrows := m, ncolumns := n }, _use_linear := true } e d
      = macc_scheme_any_scalar.evaluate
        { shape := { nrows := m, ncolumns := n }, _use_linear := false } e d := by
  obtain ⟨a1, a2, a3, a4⟩ := any_scalar_evaluate_data
    { shape := { nrows := m, ncolumns := n }, _use_linear := true } e d hm hn hd hleaf
  obtain ⟨b1, b2, b3, b4⟩ := any_scalar_evaluate_data
    { shape := { nrows := m, ncolumns := n }, _use_linear := false } e d hm hn hd hleaf
  apply dense_dest_ext
  · rw [a1, b1]
  · rw [a2, b2]
  · rw [a3, b3]
  · intro i j
    rw [a4, b4]

/-- Worked instance of C3: the sample expression evaluated into the 3 x 2 sample
destination by the linear and by the per-column traversal. -/
theorem C3_scheme_choice_same_result_witness :
    macc_scheme_any_scalar.evaluate
        { shape := { nrows := 3, ncolumns := 2 }, _use_linear := true }
        sample_expr sample_dest
      = macc_scheme_any_scalar.evaluate
        { shape := { nrows := 3, ncolumns := 2 }, _use_linear := false }
        sample_expr sample_dest :=
  C3_scheme_choice_same_result sample_expr sample_dest 3 2 (by decide) (by decide) rfl
    (fun i j hi hi2 _ _ => sample_expr_leaves_ok i j hi hi2)

/-- C4: for every source matrix `S`, every unary operator `f` and every destination
`D`, assigning the unary element-wise expression `f(S)` to `D` through the default
scheme leaves `D(i, j) = f(S(i, j))` at every position `(i, j)` of `D` at which `S`
is a dense matrix of `D`'s shape (its linear element `j * m + i` and the element its
per-column accessor returns are `S(i, j)`); in particular with `f = sqr`,
`D(i, j) = S(i, j) * S(i, j)`. -/
theorem C4_unary_assign :
    (∀ (α β : Type) (S : leaf_mat α) (f : α → β) (D : dense_dest β) (i j : Int),
      0 ≤ i → i < D.nrows → 0 ≤ j → j < D.ncolumns →
      S.linear_get_scalar (j * D.nrows + i) = S.elem i j →
      S.percol_get_scalar i (S.col_state j) = S.elem i j →
      (assign D (.unary_ewise_expr f (.leaf S))).data i j = f (S.elem i j)) ∧
    (∀ (α : Type) [Mul α] (S : leaf_mat α) (D : dense_dest α) (i j : Int),
      0 ≤ i → i < D.nrows → 0 ≤ j → j < D.ncolumns →
      S.linear_get_scalar (j * D.nrows + i) = S.elem i j →
      S.percol_get_scalar i (S.col_state j) = S.elem i j →
      (assign D (.unary_ewise_expr (fun x => x * x) (.leaf S))).data i j
        = S.elem i j * S.elem i j) :=
  ⟨fun _ _ S f D i j hi hi2 hj hj2 hlin hcol =>
      assign_data (.unary_ewise_expr f (.leaf S)) D i j hi hi2 hj hj2 hlin hcol,
    fun _ _ S D i j hi hi2 hj hj2 hlin hcol =>
      assign_data (.unary_ewise_expr (fun x => x * x) (.leaf S)) D i j hi hi2 hj hj2
        hlin hcol⟩

/-- Worked instance of C4: `D = sqr(S1)` on the 3 x 2 samples gives
`D(2, 1) = 21 * 21 = 441`, for a destination with and without linear indexing. -/
theorem C4_unary_assign_witness :
    (assign sample_dest (.unary_ewise_expr (fun x => x * x) (.leaf sample_S1))).data 2 1
        = sample_S1.elem 2 1 * sample_S1.elem 2 1 ∧
    (assign sample_dest_percol
        (.unary_ewise_expr (fun x => x * x) (.leaf sample_S1))).data 2 1
        = sample_S1.elem 2 1 * sample_S1.elem 2 1 ∧
    sample_S1.elem 2 1 * sample_S1.elem 2 1 = 441 :=
  ⟨C4_unary_assign.2 Int sample_S1 sample_dest 2 1 (by decide) (by decide) (by decide)
      (by decide) (by decide) rfl,
    C4_unary_assign.1 Int Int sample_S1 (fun x => x * x) sample_dest_percol 2 1 (by decide)
      (by decide) (by decide) (by decide) (by decide) rfl,
    by decide⟩

/-- C5: for every pair of source matrices `S1`, `S2`, every binary operator `op` and
every destination `D`, assigning the binary element-wise expression `op(S1, S2)` to
`D` leaves `D(i, j) = op(S1(i, j), S2(i, j))`, the first operand on the left, at
every position `(i, j)` of `D` at which `S1` and `S2` are dense matrices of `D`'s
shape; in particular with `op = sub`, `D(i, j) = S1(i, j) - S2(i, j)`. -/
theorem C5_binary_assign :
    (∀ (α β γ : Type) (S1 : leaf_mat α) (S2 : leaf_mat β) (op : α → β → γ)
      (D : dense_dest γ) (i j : Int),
      0 ≤ i → i < D.nrows → 0 ≤ j → j < D.ncolumns →
      S1.linear_get_scalar (j * D.nrows + i) = S1.elem i j →
      S1.percol_get_scalar i (S1.col_state j) = S1.elem i j →
      S2.linear_get_scalar (j * D.nrows + i) = S2.elem i j →
      S2.percol_get_scalar i (S2.col_state j) = S2.elem i j →
      (assign D (.binary_ewise_expr op (.leaf S1) (.leaf S2))).data i j
        = op (S1.elem i j) (S2.elem i j)) ∧
    (∀ (α : Type) [Sub α] (S1 S2 : leaf_mat α) (D : dense_dest α) (i j : Int),
      0 ≤ i → i < D.nrows → 0 ≤ j → j < D.ncolumns →
      S1.linear_get_scalar (j * D.nrows + i) = S1.elem i j →
      S1.percol_get_scalar i (S1.col_state j) = S1.elem i j →
      S2.linear_get_scalar (j * D.nrows + i) = S2.elem i j →
      S2.percol_get_scalar i (S2.col_state j) = S2.elem i j →
      (assign D (.binary_ewise_expr (fun x y => x - y) (.leaf S1) (.leaf S2))).data i j
        = S1.elem i j - S2.elem i j) :=
  ⟨fun _ _ _ S1 S2 op D i j hi hi2 hj hj2 hl1 hc1 hl2 hc2 =>
      assign_data (.binary_ewise_expr op (.leaf S1) (.leaf S2)) D i j hi hi2 hj hj2
        ⟨hl1, hl2⟩ ⟨hc1, hc2⟩,
    fun _ _ S1 S2 D i j hi hi2 hj hj2 hl1 hc1 hl2 hc2 =>
      assign_data (.binary_ewise_expr (fun x y => x - y) (.leaf S1) (.leaf S2)) D i j
        hi hi2 hj hj2 ⟨hl1, hl2⟩ ⟨hc1, hc2⟩⟩

/-- Worked instance of C5: `D = S1 - S2` on the 3 x 2 samples gives
`D(2, 1) = 21 - 3 = 18`, for a destination with and without linear indexing. -/
theorem C5_binary_assign_witness :
    (assign sample_dest
        (.binary_ewise_expr (fun x y => x - y) (.leaf sample_S1) (.leaf sample_S2))).data 2 1
        = sample_S1.elem 2 1 - sample_S2.elem 2 1 ∧
    (assign sample_dest_percol
        (.binary_ewise_expr (fun x y => x - y) (.leaf sample_S1) (.leaf sample_S2))).data 2 1
        = sample_S1.elem 2 1 - sample_S2.elem 2 1 ∧
    sample_S1.elem 2 1 - sample_S2.elem 2 1 = 18 :=
  ⟨C5_binary_assign.2 Int sample_S1 sample_S2 sample_dest 2 1 (by decide) (by decide)
      (by decide) (by decide) (by decide) rfl (by decide) rfl,
    C5_binary_assign.1 Int Int Int sample_S1 sample_S2 (fun x y => x - y)
      sample_dest_percol 2 1 (by decide) (by decide) (by decide) (by decide) (by decide) rfl
      (by decide) rfl,
    by decide⟩


/-! ## Fixed-operand accessors -/

/-- C6: for every source matrix `S1`, every scalar `c` and every binary operator
`op`, the fixed-second-operand expression evaluates at every position `(i, j)` to
`op(S1(i, j), c)`, the scalar on the right, under both the linear accessor (at linear
index `j * m + i`) and the per-column accessor (at row `i` with `col_state(j)`),
given that the leaf accessors return `S1(i, j)` there; in particular with `op = sub`
the value is `S1(i, j) - c`, and with `c = 2.5` it is `S1(i, j) - 2.5`. -/
theorem C6_fix2nd_value :
    (∀ (α β γ : Type) (S1 : leaf_mat α) (c : β) (op : α → β → γ) (m i j : Int),
      S1.linear_get_scalar (j * m + i) = S1.elem i j →
      S1.percol_get_scalar i (S1.col_state j) = S1.elem i j →
      (make_linear_accessor (.binary_fix2nd_ewise_expr op (.leaf S1) c)).get_scalar
          (j * m + i) = op (S1.elem i j) c ∧
      (make_percol_accessor (.binary_fix2nd_ewise_expr op (.leaf S1) c)).get_scalar i
          ((make_percol_accessor (.binary_fix2nd_ewise_expr op (.leaf S1) c)).col_state j)
        = op (S1.elem i j) c) ∧
    (∀ (α : Type) [Sub α] (S1 : leaf_mat α) (c : α) (m i j : Int),
      S1.linear_get_scalar (j * m + i) = S1.elem i j →
      S1.percol_get_scalar i (S1.col_state j) = S1.elem i j →
      (make_linear_accessor
          (.binary_fix2nd_ewise_expr (fun x y => x - y) (.leaf S1) c)).get_scalar
          (j * m + i) = S1.elem i j - c ∧
      (make_percol_accessor
          (.binary_fix2nd_ewise_expr (fun x y => x - y) (.leaf S1) c)).get_scalar i
          ((make_percol_accessor
            (.binary_fix2nd_ewise_expr (fun x y => x - y) (.leaf S1) c)).col_state j)
        = S1.elem i j - c) ∧
    (∀ (S1 : leaf_mat ℚ) (m i j : Int),
      S1.linear_get_scalar (j * m + i) = S1.elem i j →
      S1.percol_get_scalar i (S1.col_state j) = S1.elem i j →
      (make_linear_accessor
          (.binary_fix2nd_ewise_expr (fun x y => x - y) (.leaf S1) (5 / 2 : ℚ))).get_scalar
          (j * m + i) = S1.elem i j - 5 / 2 ∧
      (make_percol_accessor
          (.binary_fix2nd_ewise_expr (fun x y => x - y) (.leaf S1) (5 / 2 : ℚ))).get_scalar i
          ((make_percol_accessor
            (.binary_fix2nd_ewise_expr (fun x y => x - y) (.leaf S1)
              (5 / 2 : ℚ))).col_state j)
        = S1.elem i j - 5 / 2) := by
  refine ⟨?_, ?_, ?_⟩
  · intro α β γ S1 c op m i j hlin hcol
    constructor
    · rw [linear_get_scalar_eq_naive]
      show op (S1.linear_get_scalar (j * m + i)) c = _
      rw [hlin]
    · exact percol_get_scalar_eq_naive (.binary_fix2nd_ewise_expr op (.leaf S1) c) i j hcol
  · intro α _ S1 c m i j hlin hcol
    constructor
    · rw [linear_get_scalar_eq_naive]
      show S1.linear_get_scalar (j * m + i) - c = _
      rw [hlin]
    · exact percol_get_scalar_eq_naive
        (.binary_fix2nd_ewise_expr (fun x y => x - y) (.leaf S1) c) i j hcol
  · intro S1 m i j hlin hcol
    constructor
    · rw [linear_get_scalar_eq_naive]
      show S1.linear_get_scalar (j * m + i) - 5 / 2 = _
      rw [hlin]
    · exact percol_get_scalar_eq_naive
        (.binary_fix2nd_ewise_expr (fun x y => x - y) (.leaf S1) (5 / 2 : ℚ)) i j hcol

/-- Worked instance of C6: `S1 - 3` on the integer sample at `(2, 1)` is `21 - 3`,
and the rational sample minus `2.5` at `(2, 1)` is `2 + 1/2 - 5/2 = 0`. -/
theorem C6_fix2nd_value_witness :
    ((make_linear_accessor
        (.binary_fix2nd_ewise_expr (fun x y => x - y) (.leaf sample_S1) 3)).get_scalar
        (1 * 3 + 2) = sample_S1.elem 2 1 - 3 ∧
      (make_percol_accessor
        (.binary_fix2nd_ewise_expr (fun x y => x - y) (.leaf sample_S1) 3)).get_scalar 2
        ((make_percol_accessor
          (.binary_fix2nd_ewise_expr (fun x y => x - y) (.leaf sample_S1) 3)).col_state 1)
        = sample_S1.elem 2 1 - 3) ∧
    ((make_linear_accessor
        (.binary_fix2nd_ewise_expr (fun x y => x - y) (.leaf sample_Q)
          (5 / 2 : ℚ))).get_scalar (1 * 3 + 2) = sample_Q.elem 2 1 - 5 / 2 ∧
      (make_percol_accessor
        (.binary_fix2nd_ewise_expr (fun x y => x - y) (.leaf sample_Q)
          (5 / 2 : ℚ))).get_scalar 2
        ((make_percol_accessor
          (.binary_fix2nd_ewise_expr (fun x y => x - y) (.leaf sample_Q)
            (5 / 2 : ℚ))).col_state 1)
        = sample_Q.elem 2 1 - 5 / 2) ∧
    sample_S1.elem 2 1 - 3 = 18 :=
  ⟨C6_fix2nd_value.1 Int Int Int sample_S1 3 (fun x y => x - y) 3 2 1 (by decide) rfl,
    C6_fix2nd_value.2.2 sample_Q 3 2 1
      (dense_leaf_linear_ok 3 _ _ 2 1 (by decide) (by decide)) rfl,
    by decide⟩

/-- C7: for every source matrix `S2`, every scalar `c` and every binary operator
`op`, the fixed-first-operand expression evaluates at every position `(i, j)` to
`op(c, S2(i, j))`, the scalar on the left, under both the linear accessor (at linear
index `j * m + i`) and the per-column accessor (at row `i` with `col_state(j)`),
given that the leaf accessors return `S2(i, j)` there; in particular with `op = sub`
the value is `c - S2(i, j)`, which over the integers differs from `S2(i, j) - c`
whenever `c` differs from `S2(i, j)`. -/
theorem C7_fix1st_value :
    (∀ (α β γ : Type) (S2 : leaf_mat β) (c : α) (op : α → β → γ) (m i j : Int),
      S2.linear_get_scalar (j * m + i) = S2.elem i j →
      S2.percol_get_scalar i (S2.col_state j) = S2.elem i j →
      (make_linear_accessor (.binary_fix1st_ewise_expr op c (.leaf S2))).get_scalar
          (j * m + i) = op c (S2.elem i j) ∧
      (make_percol_accessor (.binary_fix1st_ewise_expr op c (.leaf S2))).get_scalar i
          ((make_percol_accessor (.binary_fix1st_ewise_expr op c (.leaf S2))).col_state j)
        = op c (S2.elem i j)) ∧
    (∀ (α : Type) [Sub α] (S2 : leaf_mat α) (c : α) (m i j : Int),
      S2.linear_get_scalar (j * m + i) = S2.elem i j →
      S2.percol_get_scalar i (S2.col_state j) = S2.elem i j →
      (make_linear_accessor
          (.binary_fix1st_ewise_expr (fun x y => x - y) c (.leaf S2))).get_scalar
          (j * m + i) = c - S2.elem i j ∧
      (make_percol_accessor
          (.binary_fix1st_ewise_expr (fun x y => x - y) c (.leaf S2))).get_scalar i
          ((make_percol_accessor
            (.binary_fix1st_ewise_expr (fun x y => x - y) c (.leaf S2))).col_state j)
        = c - S2.elem i j) ∧
    (∀ (S2 : leaf_mat Int) (c : Int) (m i j : Int),
      S2.linear_get_scalar (j * m + i) = S2.elem i j →
      S2.percol_get_scalar i (S2.col_state j) = S2.elem i j →
      c ≠ S2.elem i j →
      (make_linear_accessor
          (.binary_fix1st_ewise_expr (fun x y => x - y) c (.leaf S2))).get_scalar
          (j * m + i) ≠ S2.elem i j - c ∧
      (make_percol_accessor
          (.binary_fix1st_ewise_expr (fun x y => x - y) c (.leaf S2))).get_scalar i
          ((make_percol_accessor
            (.binary_fix1st_ewise_expr (fun x y => x - y) c (.leaf S2))).col_state j)
        ≠ S2.elem i j - c) := by
  have general : ∀ (α β γ : Type) (S2 : leaf_mat β) (c : α) (op : α → β → γ) (m i j : Int),
      S2.linear_get_scalar (j * m + i) = S2.elem i j →
      S2.percol_get_scalar i (S2.col_state j) = S2.elem i j →
      (make_linear_accessor (.binary_fix1st_ewise_expr op c (.leaf S2))).get_scalar
          (j * m + i) = op c (S2.elem i j) ∧
      (make_percol_accessor (.binary_fix1st_ewise_expr op c (.leaf S2))).get_scalar i
          ((make_percol_accessor (.binary_fix1st_ewise_expr op c (.leaf S2))).col_state j)
        = op c (S2.elem i j) := by
    intro α β γ S2 c op m i j hlin hcol
    constructor
    · rw [linear_get_scalar_eq_naive]
      show op c (S2.linear_get_scalar (j * m + i)) = _
      rw [hlin]
    · exact percol_get_scalar_eq_naive (.binary_fix1st_ewise_expr op c (.leaf S2)) i j hcol
  refine ⟨general, ?_, ?_⟩
  · intro α _ S2 c m i j hlin hcol
    exact general α α α S2 c (fun x y => x - y) m i j hlin hcol
  · intro S2 c m i j hlin hcol hne
    obtain ⟨h1, h2⟩ := general Int Int Int S2 c (fun x y => x - y) m i j hlin hcol
    rw [h1, h2]
    have : c - S2.elem i j ≠ S2.elem i j - c := by omega
    exact ⟨this, this⟩

/-- Worked instance of C7: `7 - S2` on the integer sample at `(2, 1)` is `7 - 3 = 4`
under both accessors, and it is not `3 - 7`. -/
theorem C7_fix1st_value_witness :
    ((make_linear_accessor
        (.binary_fix1st_ewise_expr (fun x y => x - y) 7 (.leaf sample_S2))).get_scalar
        (1 * 3 + 2) = 7 - sample_S2.elem 2 1 ∧
      (make_percol_accessor
        (.binary_fix1st_ewise_expr (fun x y => x - y) 7 (.leaf sample_S2))).get_scalar 2
        ((make_percol_accessor
          (.binary_fix1st_ewise_expr (fun x y => x - y) 7 (.leaf sample_S2))).col_state 1)
        = 7 - sample_S2.elem 2 1) ∧
    ((make_linear_accessor
        (.binary_fix1st_ewise_expr (fun x y => x - y) 7 (.leaf sample_S2))).get_scalar
        (1 * 3 + 2) ≠ sample_S2.elem 2 1 - 7 ∧
      (make_percol_accessor
        (.binary_fix1st_ewise_expr (fun x y => x - y) 7 (.leaf sample_S2))).get_scalar 2
        ((make_percol_accessor
          (.binary_fix1st_ewise_expr (fun x y => x - y) 7 (.leaf sample_S2))).col_state 1)
        ≠ sample_S2.elem 2 1 - 7) ∧
    (7 : Int) - sample_S2.elem 2 1 = 4 :=
  ⟨C7_fix1st_value.1 Int Int Int sample_S2 7 (fun x y => x - y) 3 2 1 (by decide) rfl,
    C7_fix1st_value.2.2 sample_S2 7 3 2 1 (by decide) rfl (by decide),
    by decide⟩

/-! ## Default scheme selection and cost model -/

/-- C8: for every expression and destination, the default scalar selector
(`get_default` of `macc_scheme<any_macc, scalar_kernel_t>`) chooses linear access if
and only if `linear_cost <= percol_cost`, where `percol_cost` already includes the
penalty the function adds for a short column; when the two costs are equal it
chooses linear. -/
theorem C8_get_default_linear_iff {α β : Type} (e : Xpr α) (d : dense_dest β) :
    ((macc_scheme_any_scalar.get_default e d).use_linear = true ↔
      macc_cost e .linear_macc .scalar_kernel_t ≤
        (if d.nrows ≤ 100
          then int_add (macc_cost e .percol_macc .scalar_kernel_t) 100
          else macc_cost e .percol_macc .scalar_kernel_t)) ∧
    (macc_cost e .linear_macc .scalar_kernel_t =
        (if d.nrows ≤ 100
          then int_add (macc_cost e .percol_macc .scalar_kernel_t) 100
          else macc_cost e .percol_macc .scalar_kernel_t) →
      (macc_scheme_any_scalar.get_default e d).use_linear = true) :=
  ⟨get_default_use_linear_iff e d,
    fun h => (get_default_use_linear_iff e d).mpr (le_of_eq h)⟩

/-- Worked instance of C8: a leaf of linear cost 50 and per-column cost 0 with a
destination of 101 rows (no penalty) is evaluated per column, since `50 <= 0` fails. -/
theorem C8_get_default_linear_iff_witness :
    (macc_scheme_any_scalar.get_default (Xpr.leaf sample_cost_leaf) sample_dest_101).use_linear
      = false :=
  Bool.eq_false_iff.mpr fun h =>
    absurd ((C8_get_default_linear_iff (Xpr.leaf sample_cost_leaf) sample_dest_101).1.mp h)
      (by decide)

/-- C9, as stated, fails at a destination with exactly 100 rows: for a leaf of linear
cost 50 and per-column cost 0, `get_default` chooses linear although the unpenalised
comparison `50 <= 0` is false, so the penalty has been added at `m = 100`. -/
theorem C9_counterexample_100_rows :
    sample_dest_100.nrows = 100 ∧
    macc_cost (Xpr.leaf sample_cost_leaf) .linear_macc .scalar_kernel_t = 50 ∧
    macc_cost (Xpr.leaf sample_cost_leaf) .percol_macc .scalar_kernel_t = 0 ∧
    ¬ ((macc_scheme_any_scalar.get_default (Xpr.leaf sample_cost_leaf)
          sample_dest_100).use_linear = true ↔
        macc_cost (Xpr.leaf sample_cost_leaf) .linear_macc .scalar_kernel_t ≤
          macc_cost (Xpr.leaf sample_cost_leaf) .percol_macc .scalar_kernel_t) := by
  refine ⟨rfl, rfl, rfl, ?_⟩
  decide

/-- C9 (amended): in `get_default` of the `any_macc` scalar scheme the fixed penalty
of 100 is added to the per-column cost exactly when the destination's row count is
at most 100 (`m <= 100`, so also at `m = 100`): for `m <= 100` linear is chosen iff
`linear_cost <= percol_cost + 100` (the sum taken as an `int`, which is the exact sum
whenever it fits), and for every destination with `m > 100` rows no penalty is added
and linear is chosen iff the unpenalised `linear_cost <= percol_cost`. -/
theorem C9_penalty_iff_at_most_100_rows {α β : Type} (e : Xpr α) (d : dense_dest β) :
    (d.nrows ≤ 100 →
      ((macc_scheme_any_scalar.get_default e d).use_linear = true ↔
        macc_cost e .linear_macc .scalar_kernel_t ≤
          int_add (macc_cost e .percol_macc .scalar_kernel_t) 100)) ∧
    (d.nrows ≤ 100 →
      -2147483648 ≤ macc_cost e .percol_macc .scalar_kernel_t + 100 →
      macc_cost e .percol_macc .scalar_kernel_t + 100 < 2147483648 →
      ((macc_scheme_any_scalar.get_default e d).use_linear = true ↔
        macc_cost e .linear_macc .scalar_kernel_t ≤
          macc_cost e .percol_macc .scalar_kernel_t + 100)) ∧
    (100 < d.nrows →
      ((macc_scheme_any_scalar.get_default e d).use_linear = true ↔
        macc_cost e .linear_macc .scalar_kernel_t ≤
          macc_cost e .percol_macc .scalar_kernel_t)) := by
  have key := get_default_use_linear_iff e d
  refine ⟨?_, ?_, ?_⟩
  · intro h
    rw [if_pos h] at key
    exact key
  · intro h h1 h2
    rw [if_pos h, int_add_eq_of_in_range _ _ h1 h2] at key
    exact key
  · intro h
    rw [if_neg (not_le.mpr h)] at key
    exact key

/-- Worked instance of amended C9 for a leaf of linear cost 50 and per-column cost 0:
with 100 rows the penalised comparison `50 <= 0 + 100` decides (linear), with 101
rows the unpenalised comparison `50 <= 0` decides (per column). -/
theorem C9_penalty_iff_at_most_100_rows_witness :
    ((macc_scheme_any_scalar.get_default (Xpr.leaf sample_cost_leaf)
        sample_dest_100).use_linear = true ↔
      macc_cost (Xpr.leaf sample_cost_leaf) .linear_macc .scalar_kernel_t ≤
        macc_cost (Xpr.leaf sample_cost_leaf) .percol_macc .scalar_kernel_t + 100) ∧
    ((macc_scheme_any_scalar.get_default (Xpr.leaf sample_cost_leaf)
        sample_dest_101).use_linear = true ↔
      macc_cost (Xpr.leaf sample_cost_leaf) .linear_macc .scalar_kernel_t ≤
        macc_cost (Xpr.leaf sample_cost_leaf) .percol_macc .scalar_kernel_t) :=
  ⟨(C9_penalty_iff_at_most_100_rows (Xpr.leaf sample_cost_leaf) sample_dest_100).2.1
      (by decide) (by decide) (by decide),
    (C9_penalty_iff_at_most_100_rows (Xpr.leaf sample_cost_leaf) sample_dest_101).2.2
      (by decide)⟩

/-- C10: for every binary element-wise expression `binary(a, b)` and every access
category and kernel category,
`macc_cost(binary(a, b), cat, ker) = macc_cost(a, cat, ker) + macc_cost(b, cat, ker)`. -/
theorem C10_macc_cost_binary {α β γ : Type} (op : α → β → γ) (a : Xpr α) (b : Xpr β)
    (cat : acc_cate) (ker : ker_cate) :
    macc_cost (.binary_ewise_expr op a b) cat ker = macc_cost a cat ker + macc_cost b cat ker :=
  rfl

/-! ## Cost model laws -/

/-- C11: for every unary expression, every fixed-first-operand expression and every
fixed-second-operand expression, and every access/kernel category, the expression's
`macc_cost` equals the `macc_cost` of its single matrix operand: the operator and the
fixed scalar contribute nothing. -/
theorem C11_macc_cost_single_operand :
    (∀ (α β : Type) (op : α → β) (arg : Xpr α) (cat : acc_cate) (ker : ker_cate),
      macc_cost (.unary_ewise_expr op arg) cat ker = macc_cost arg cat ker) ∧
    (∀ (α β γ : Type) (op : α → β → γ) (v : α) (arg : Xpr β) (cat : acc_cate)
      (ker : ker_cate),
      macc_cost (.binary_fix1st_ewise_expr op v arg) cat ker = macc_cost arg cat ker) ∧
    (∀ (α β γ : Type) (op : α → β → γ) (arg : Xpr α) (v : β) (cat : acc_cate)
      (ker : ker_cate),
      macc_cost (.binary_fix2nd_ewise_expr op arg v) cat ker = macc_cost arg cat ker) :=
  ⟨fun _ _ _ _ _ _ => rfl, fun _ _ _ _ _ _ _ _ => rfl, fun _ _ _ _ _ _ _ _ => rfl⟩

/-- C12: cost composition is operand-order-independent and associative: for all
expressions `a`, `b`, `c`, all operators and every access/kernel category,
`macc_cost(binary(a, b)) = macc_cost(binary(b, a))` and
`macc_cost(binary(binary(a, b), c)) = macc_cost(binary(a, binary(b, c)))`. -/
theorem C12_macc_cost_comm_assoc :
    (∀ (α β γ δ : Type) (op : α → β → γ) (op' : β → α → δ) (a : Xpr α) (b : Xpr β)
      (cat : acc_cate) (ker : ker_cate),
      macc_cost (.binary_ewise_expr op a b) cat ker
        = macc_cost (.binary_ewise_expr op' b a) cat ker) ∧
    (∀ (α β γ δ ε ζ η : Type) (op1 : α → β → δ) (op2 : δ → γ → ε) (op3 : β → γ → ζ)
      (op4 : α → ζ → η) (a : Xpr α) (b : Xpr β) (c : Xpr γ) (cat : acc_cate)
      (ker : ker_cate),
      macc_cost (.binary_ewise_expr op2 (.binary_ewise_expr op1 a b) c) cat ker
        = macc_cost (.binary_ewise_expr op4 a (.binary_ewise_expr op3 b c)) cat ker) := by
  constructor
  · intro α β γ δ op op' a b cat ker
    simp only [macc_cost]
    exact add_comm _ _
  · intro α β γ δ ε ζ η op1 op2 op3 op4 a b c cat ker
    simp only [macc_cost]
    exact add_assoc _ _ _

/-! ## Default scheme: category, shape, kernel, determinism -/

/-- C13: for a destination that does not support linear indexing,
`default_macc_scheme` selects the `percol_macc` scheme, whose `use_linear()` is false
for every expression and whatever the costs (no cost comparison takes place); for a
destination that supports linear indexing it selects the `any_macc` scheme, whose
decision is made by the cost comparison. -/
theorem C13_default_scheme_category :
    (∀ (α β : Type) (e : Xpr α) (d : dense_dest β), d.ct_supports_linear_index = false →
      default_macc_scheme_get e d
          = .percol_macc (macc_scheme_percol_scalar.get_default e d) ∧
        (default_macc_scheme_get e d).use_linear = false) ∧
    (∀ s : macc_scheme_percol_scalar, s.use_linear = false) ∧
    (∀ (α β : Type) (e : Xpr α) (d : dense_dest β), d.ct_supports_linear_index = true →
      default_macc_scheme_get e d = .any_macc (macc_scheme_any_scalar.get_default e d) ∧
        ((default_macc_scheme_get e d).use_linear = true ↔
          macc_cost e .linear_macc .scalar_kernel_t ≤
            (if d.nrows ≤ 100
              then int_add (macc_cost e .percol_macc .scalar_kernel_t) 100
              else macc_cost e .percol_macc .scalar_kernel_t))) := by
  refine ⟨?_, fun _ => rfl, ?_⟩
  · intro α β e d h
    have hs : default_macc_scheme_get e d
        = .percol_macc (macc_scheme_percol_scalar.get_default e d) := by
      unfold default_macc_scheme_get
      rw [h]
      rfl
    refine ⟨hs, ?_⟩
    rw [hs]
    rfl
  · intro α β e d h
    have hs : default_macc_scheme_get e d
        = .any_macc (macc_scheme_any_scalar.get_default e d) := by
      unfold default_macc_scheme_get
      rw [h]
      rfl
    refine ⟨hs, ?_⟩
    rw [hs]
    exact get_default_use_linear_iff e d

/-- Worked instance of C13: a leaf of linear cost 50 and per-column cost 0 with a
3-row destination. Without linear indexing the scheme is per-column although
`50 <= 0 + 100` holds; with linear indexing the comparison decides for linear. -/
theorem C13_default_scheme_category_witness :
    (default_macc_scheme_get (Xpr.leaf sample_cost_leaf) sample_dest_percol).use_linear
        = false ∧
    (default_macc_scheme_get (Xpr.leaf sample_cost_leaf) sample_dest).use_linear = true :=
  ⟨(C13_default_scheme_category.1 Int Int (Xpr.leaf sample_cost_leaf) sample_dest_percol
      rfl).2,
    ((C13_default_scheme_category.2.2 Int Int (Xpr.leaf sample_cost_leaf) sample_dest
      rfl).2).mpr (by decide)⟩

/-- C14: for every expression and destination, the scheme returned by `get_default`
(in each of the `any_macc`, `linear_macc` and `percol_macc` scalar variants) records
exactly the destination's row count and column count as its shape, whatever the
expression and whatever the linear/per-column decision. -/
theorem C14_get_default_shape {α β : Type} (e : Xpr α) (d : dense_dest β) :
    ((macc_scheme_any_scalar.get_default e d).shape.nrows = d.nrows ∧
      (macc_scheme_any_scalar.get_default e d).shape.ncolumns = d.ncolumns) ∧
    ((macc_scheme_linear_scalar.get_default e d).shape.nrows = d.nrows ∧
      (macc_scheme_linear_scalar.get_default e d).shape.ncolumns = d.ncolumns) ∧
    ((macc_scheme_percol_scalar.get_default e d).shape.nrows = d.nrows ∧
      (macc_scheme_percol_scalar.get_default e d).shape.ncolumns = d.ncolumns) :=
  ⟨⟨rfl, rfl⟩, ⟨rfl, rfl⟩, ⟨rfl, rfl⟩⟩

/-- C15: every scheme produced by `default_macc_scheme::get` has
`use_simd() = false`, for every expression and destination: the default kernel
category is scalar and all three scalar scheme variants return false from
`use_simd()`. -/
theorem C15_default_scheme_no_simd :
    (∀ (α β : Type) (e : Xpr α) (d : dense_dest β),
      (default_macc_scheme_get e d).use_simd = false) ∧
    (∀ s : macc_scheme_any_scalar, s.use_simd = false) ∧
    (∀ s : macc_scheme_linear_scalar, s.use_simd = false) ∧
    (∀ s : macc_scheme_percol_scalar, s.use_simd = false) := by
  refine ⟨?_, fun _ => rfl, fun _ => rfl, fun _ => rfl⟩
  intro α β e d
  unfold default_macc_scheme_get
  cases d.ct_supports_linear_index <;> rfl

/-- C16: scheme selection is a function of the expression's static costs and the
destination's dimensions only: for any two calls of `get_default` whose expressions
have equal linear and per-column costs and whose destinations have equal row and
column counts, the returned schemes are equal, so the `use_linear` and `use_simd`
decisions are equal, whatever the element types and values of the operands and of the
destinations. -/
theorem C16_get_default_deterministic {α₁ α₂ β₁ β₂ : Type} (e₁ : Xpr α₁) (e₂ : Xpr α₂)
    (d₁ : dense_dest β₁) (d₂ : dense_dest β₂)
    (hlin : macc_cost e₁ .linear_macc .scalar_kernel_t
      = macc_cost e₂ .linear_macc .scalar_kernel_t)
    (hcol : macc_cost e₁ .percol_macc .scalar_kernel_t
      = macc_cost e₂ .percol_macc .scalar_kernel_t)
    (hm : d₁.nrows = d₂.nrows) (hn : d₁.ncolumns = d₂.ncolumns) :
    macc_scheme_any_scalar.get_default e₁ d₁ = macc_scheme_any_scalar.get_default e₂ d₂ ∧
    (macc_scheme_any_scalar.get_default e₁ d₁).use_linear
      = (macc_scheme_any_scalar.get_default e₂ d₂).use_linear ∧
    (macc_scheme_any_scalar.get_default e₁ d₁).use_simd
      = (macc_scheme_any_scalar.get_default e₂ d₂).use_simd := by
  have h : macc_scheme_any_scalar.get_default e₁ d₁
      = macc_scheme_any_scalar.get_default e₂ d₂ := by
    unfold macc_scheme_any_scalar.get_default
    simp only [hlin, hcol, hm, hn]
  exact ⟨h, by rw [h], by rw [h]⟩

/-- Worked instance of C16: two leaves with the same costs but different elements
(all 0, all 7) and two 100 x 1 destinations with different contents get the same
scheme. -/
theorem C16_get_default_deterministic_witness :
    macc_scheme_any_scalar.get_default (Xpr.leaf sample_cost_leaf) sample_dest_100
        = macc_scheme_any_scalar.get_default (Xpr.leaf sample_cost_leaf_7)
          sample_dest_100_ones ∧
    (macc_scheme_any_scalar.get_default (Xpr.leaf sample_cost_leaf) sample_dest_100).use_linear
        = (macc_scheme_any_scalar.get_default (Xpr.leaf sample_cost_leaf_7)
          sample_dest_100_ones).use_linear ∧
    (macc_scheme_any_scalar.get_default (Xpr.leaf sample_cost_leaf) sample_dest_100).use_simd
        = (macc_scheme_any_scalar.get_default (Xpr.leaf sample_cost_leaf_7)
          sample_dest_100_ones).use_simd :=
  C16_get_default_deterministic (Xpr.leaf sample_cost_leaf) (Xpr.leaf sample_cost_leaf_7)
    sample_dest_100 sample_dest_100_ones rfl rfl rfl rfl

/-! ## Idempotence of evaluation -/

theorem write_fold_mask {α : Type} (p1 p2 : Nat → Int) (v : Nat → α) (L : List Nat) :
    ∃ mask : Int → Int → Option α, ∀ d : dense_dest α,
      (L.foldl (fun (d : dense_dest α) (k : Nat) => d.write (p1 k) (p2 k) (v k)) d).nrows
          = d.nrows ∧
      (L.foldl (fun (d : dense_dest α) (k : Nat) => d.write (p1 k) (p2 k) (v k)) d).ncolumns
          = d.ncolumns ∧
      (L.foldl (fun (d : dense_dest α) (k : Nat) =>
          d.write (p1 k) (p2 k) (v k)) d).ct_supports_linear_index
          = d.ct_supports_linear_index ∧
      ∀ i j : Int,
        (L.foldl (fun (d : dense_dest α) (k : Nat) => d.write (p1 k) (p2 k) (v k)) d).data i j
          = (mask i j).getD (d.data i j) := by
  induction L with
  | nil => exact ⟨fun _ _ => none, fun d => ⟨rfl, rfl, rfl, fun _ _ => rfl⟩⟩
  | cons k L ih =>
      obtain ⟨mask', hmask⟩ := ih
      refine ⟨fun i j =>
        if i = p1 k ∧ j = p2 k then some ((mask' i j).getD (v k)) else mask' i j, ?_⟩
      intro d
      obtain ⟨h1, h2, h3, h4⟩ := hmask (d.write (p1 k) (p2 k) (v k))
      rw [List.foldl_cons]
      refine ⟨h1, h2, h3, ?_⟩
      intro i j
      rw [h4, write_data]
      show _ = (if i = p1 k ∧ j = p2 k then some ((mask' i j).getD (v k))
        else mask' i j).getD (d.data i j)
      by_cases hc : i = p1 k ∧ j = p2 k
      · rw [if_pos hc, if_pos hc, Option.getD_some]
      · rw [if_neg hc, if_neg hc]

theorem write_linear_fold_eq {α : Type} (g : Int → α) (m : Int) (L : List Nat) :
    ∀ d : dense_dest α, d.nrows = m →
      L.foldl (fun (d : dense_dest α) (k : Nat) => d.write_linear (k : Int) (g (k : Int))) d
        = L.foldl (fun (d : dense_dest α) (k : Nat) =>
            d.write ((k : Int) % m) ((k : Int) / m) (g (k : Int))) d := by
  induction L with
  | nil => intro d _; rfl
  | cons k L ih =>
      intro d hd
      rw [List.foldl_cons, List.foldl_cons]
      have hw : d.write_linear (k : Int) (g (k : Int))
          = d.write ((k : Int) % m) ((k : Int) / m) (g (k : Int)) := by
        unfold dense_dest.write_linear
        rw [hd]
      rw [hw]
      exact ih _ hd

theorem macc_eval_linear_scalar_evaluate_idem {α : Type} (nelems : Int) (e : Xpr α)
    (d : dense_dest α) :
    macc_eval_linear_scalar_evaluate nelems e (macc_eval_linear_scalar_evaluate nelems e d)
      = macc_eval_linear_scalar_evaluate nelems e d := by
  obtain ⟨m, hm⟩ : ∃ m : Int, d.nrows = m := ⟨_, rfl⟩
  obtain ⟨mask, hmask⟩ := write_fold_mask (fun k => (k : Int) % m)
    (fun k => (k : Int) / m) (fun k => (make_linear_accessor e).get_scalar (k : Int))
    (List.range nelems.toNat)
  have hform : ∀ x : dense_dest α, x.nrows = m →
      macc_eval_linear_scalar_evaluate nelems e x
        = (List.range nelems.toNat).foldl (fun (y : dense_dest α) (k : Nat) =>
            y.write ((k : Int) % m) ((k : Int) / m)
              ((make_linear_accessor e).get_scalar (k : Int))) x := by
    intro x hx
    exact write_linear_fold_eq (fun k => (make_linear_accessor e).get_scalar k) m
      (List.range nelems.toNat) x hx
  obtain ⟨a1, a2, a3, a4⟩ := hmask d
  rw [← hform d hm] at a1 a2 a3 a4
  obtain ⟨b1, b2, b3, b4⟩ := hmask (macc_eval_linear_scalar_evaluate nelems e d)
  rw [← hform _ (a1.trans hm)] at b1 b2 b3 b4
  apply dense_dest_ext
  · exact b1
  · exact b2
  · exact b3
  · intro i j
    rw [b4, a4]
    cases mask i j <;> rfl

theorem macc_eval_percol_scalar_evaluate_idem {α : Type} (m n : Int) (e : Xpr α)
    (d : dense_dest α) :
    macc_eval_percol_scalar_evaluate m n e (macc_eval_percol_scalar_evaluate m n e d)
      = macc_eval_percol_scalar_evaluate m n e d := by
  have hspec : ∀ d' : dense_dest α,
      (macc_eval_percol_scalar_evaluate m n e d').nrows = d'.nrows ∧
      (macc_eval_percol_scalar_evaluate m n e d').ncolumns = d'.ncolumns ∧
      (macc_eval_percol_scalar_evaluate m n e d').ct_supports_linear_index
        = d'.ct_supports_linear_index ∧
      ∀ i j : Int, (macc_eval_percol_scalar_evaluate m n e d').data i j
        = if 0 ≤ i ∧ i < (m.toNat : Int) ∧ 0 ≤ j ∧ j < (n.toNat : Int)
          then (make_percol_accessor e).get_scalar i ((make_percol_accessor e).col_state j)
          else d'.data i j :=
    fun d' => write_percol_loop
      (fun i j => (make_percol_accessor e).get_scalar i ((make_percol_accessor e).col_state j))
      d' m.toNat n.toNat
  obtain ⟨_, _, _, a4⟩ := hspec d
  obtain ⟨b1, b2, b3, b4⟩ := hspec (macc_eval_percol_scalar_evaluate m n e d)
  apply dense_dest_ext
  · exact b1
  · exact b2
  · exact b3
  · intro i j
    rw [b4, a4]
    by_cases hc : 0 ≤ i ∧ i < (m.toNat : Int) ∧ 0 ≤ j ∧ j < (n.toNat : Int)
    · rw [if_pos hc, if_pos hc]
    · rw [if_neg hc, if_neg hc]

/-- C17: evaluation is idempotent. For every scheme `macc_scheme<any_macc,
scalar_kernel_t>`, every expression and every destination (the sources are values
that the destination's writes cannot change, so they do not alias it), evaluating the
expression into the destination twice with the same scheme leaves the destination in
the same state as evaluating it once. -/
theorem C17_evaluate_idempotent {α : Type} (s : macc_scheme_any_scalar) (e : Xpr α)
    (d : dense_dest α) :
    s.evaluate e (s.evaluate e d) = s.evaluate e d := by
  unfold macc_scheme_any_scalar.evaluate
  by_cases hl : s._use_linear = true
  · simp only [if_pos hl]
    exact macc_eval_linear_scalar_evaluate_idem _ e d
  · simp only [if_neg hl]
    exact macc_eval_percol_scalar_evaluate_idem _ _ e d

/-! ## Partial reductions -/

/-- C18: reduction shape rule. For every argument expression with `m` rows and `n`
columns and every reduction functor, the column-wise reduction expression reports
`nrows() = 1` and `ncolumns() = n`, and the row-wise reduction expression reports
`nrows() = m` and `ncolumns() = 1`. -/
theorem C18_reduce_shape {Fun α : Type} (f : Fun) (arg : IMatrixXpr α) (m n : Int)
    (hm : arg.nrows = m) (hn : arg.ncolumns = n) :
    ((reduce_colwise f arg).nrows = 1 ∧ (reduce_colwise f arg).ncolumns = n) ∧
    ((reduce_rowwise f arg).nrows = m ∧ (reduce_rowwise f arg).ncolumns = 1) :=
  ⟨⟨rfl, hn⟩, ⟨hm, rfl⟩⟩

/-- Worked instance of C18: the column-wise sum of the 3 x 2 sample is 1 x 2, its
row-wise sum is 3 x 1. -/
theorem C18_reduce_shape_witness :
    ((reduce_colwise (sum_fun Int) sample_ones).nrows = 1 ∧
      (reduce_colwise (sum_fun Int) sample_ones).ncolumns = 2) ∧
    ((reduce_rowwise (sum_fun Int) sample_ones).nrows = 3 ∧
      (reduce_rowwise (sum_fun Int) sample_ones).ncolumns = 1) :=
  C18_reduce_shape (sum_fun Int) sample_ones 3 2 rfl rfl

theorem foldl_add_ones {α : Type} [AddMonoidWithOne α] (f : Nat → α) (M : Nat)
    (hf : ∀ i : Nat, i < M → f i = 1) :
    (List.range M).foldl (fun (acc : α) (i : Nat) => acc + f i) 0 = (M : α) := by
  induction M with
  | zero => simp
  | succ M ih =>
      rw [List.range_succ, List.foldl_append, ih (fun i hi => hf i (Nat.lt_succ_of_lt hi))]
      simp only [List.foldl_cons, List.foldl_nil]
      rw [hf M (Nat.lt_succ_self M)]
      push_cast
      rfl

/-- C19: for every `m` and `n`, the column-wise sum of an `m x n` matrix whose entries
are all 1 is a `1 x n` matrix whose every entry equals `m`. -/
theorem C19_colwise_sum_ones {α : Type} [AddMonoidWithOne α] (A : IMatrixXpr α) (m n : Nat)
    (hm : A.nrows = (m : Int)) (hn : A.ncolumns = (n : Int))
    (hones : ∀ i j : Int, 0 ≤ i → i < (m : Int) → 0 ≤ j → j < (n : Int) →
      naive_eval A.derived i j = 1) :
    (sum_colwise A).nrows = 1 ∧ (sum_colwise A).ncolumns = (n : Int) ∧
    ∀ j : Int, 0 ≤ j → j < (n : Int) → (sum_colwise A).value j = (m : α) := by
  refine ⟨rfl, hn, ?_⟩
  intro j hj hj2
  unfold colwise_reduce_expr.value
  have hrows : (sum_colwise A).arg.nrows.toNat = m := by
    show A.nrows.toNat = m
    rw [hm]
    exact Int.toNat_natCast m
  rw [hrows]
  exact foldl_add_ones (fun i => naive_eval A.derived (i : Int) j) m
    (fun i hi => hones (i : Int) j (Int.natCast_nonneg i) (by exact_mod_cast hi) hj hj2)

/-- Worked instance of C19: the column-wise sum of the 3 x 2 all-ones sample has
shape 1 x 2 and the entry 3 in column 1. -/
theorem C19_colwise_sum_ones_witness :
    (sum_colwise sample_ones).nrows = 1 ∧ (sum_colwise sample_ones).ncolumns = 2 ∧
    (sum_colwise sample_ones).value 1 = 3 :=
  ⟨(C19_colwise_sum_ones sample_ones 3 2 rfl rfl (fun _ _ _ _ _ _ => rfl)).1,
    (C19_colwise_sum_ones sample_ones 3 2 rfl rfl (fun _ _ _ _ _ _ => rfl)).2.1,
    (C19_colwise_sum_ones sample_ones 3 2 rfl rfl (fun _ _ _ _ _ _ => rfl)).2.2 1
      (by decide) (by decide)⟩

/-- C20: for every matrix `A` (in particular every `A` with at least one row),
`mean(A, colwise)` is a `1 x n` expression that equals, entry by entry,
`sum(A, colwise)` multiplied by the reciprocal of `A`'s row count: for every column
`j`, its value at `(0, j)`, the value its linear accessor returns at index `j` and
the value its per-column accessor returns at row 0 of column `j` are
`sum(A, colwise)[j] * (1 / nrows(A))`. -/
theorem C20_colwise_mean {α : Type} [Zero α] [Add α] [Mul α] [One α] [Div α] [IntCast α]
    (embed_cost : acc_cate → ker_cate → Int) (A : IMatrixXpr α) (j : Int) :
    (mean_colwise embed_cost A).nrows = 1 ∧
    (mean_colwise embed_cost A).ncolumns = A.ncolumns ∧
    naive_eval (mean_colwise embed_cost A).derived 0 j
      = (sum_colwise A).value j * (1 / ((A.nrows : Int) : α)) ∧
    (make_linear_accessor (mean_colwise embed_cost A).derived).get_scalar j
      = (sum_colwise A).value j * (1 / ((A.nrows : Int) : α)) ∧
    (make_percol_accessor (mean_colwise embed_cost A).derived).get_scalar 0
        ((make_percol_accessor (mean_colwise embed_cost A).derived).col_state j)
      = (sum_colwise A).value j * (1 / ((A.nrows : Int) : α)) := by
  refine ⟨rfl, rfl, rfl, ?_, rfl⟩
  show (sum_colwise A).value (j / 1) * (1 / ((A.nrows : Int) : α)) = _
  rw [Int.ediv_one]

/-- Worked instance of C20 on the 3 x 2 rational sample with entries `i + j / 2`:
column 1 sums to `9 / 2` and its mean is `9 / 2 * (1 / 3) = 3 / 2`. -/
theorem C20_colwise_mean_witness :
    0 < sample_Q_xpr.nrows ∧
    naive_eval (mean_colwise (fun _ _ => 0) sample_Q_xpr).derived 0 1
      = (sum_colwise sample_Q_xpr).value 1 * (1 / ((sample_Q_xpr.nrows : Int) : ℚ)) ∧
    (make_linear_accessor (mean_colwise (fun _ _ => 0) sample_Q_xpr).derived).get_scalar 1
      = (sum_colwise sample_Q_xpr).value 1 * (1 / ((sample_Q_xpr.nrows : Int) : ℚ)) ∧
    (sum_colwise sample_Q_xpr).value 1 = 9 / 2 ∧
    naive_eval (mean_colwise (fun _ _ => 0) sample_Q_xpr).derived 0 1 = 3 / 2 :=
  ⟨by decide,
    (C20_colwise_mean (fun _ _ => 0) sample_Q_xpr 1).2.2.1,
    (C20_colwise_mean (fun _ _ => 0) sample_Q_xpr 1).2.2.2.1,
    by
      simp [colwise_reduce_expr.value, sum_colwise, reduce_colwise, sum_fun, sample_Q_xpr,
        sample_Q, dense_leaf, naive_eval, List.range_succ]
      norm_num,
    by
      simp [mean_colwise, mul_fix2, colwise_reduce_expr.embed, colwise_reduce_expr.value,
        sum_colwise, reduce_colwise, sum_fun, sample_Q_xpr, sample_Q, dense_leaf, naive_eval,
        math_rcp, List.range_succ]
      norm_num⟩

/-! ## Sums as finite sums -/

theorem foldl_add_eq_sum {α : Type} [AddCommMonoid α] (f : Nat → α) (M : Nat) :
    (List.range M).foldl (fun (acc : α) (i : Nat) => acc + f i) 0
      = ∑ i in Finset.range M, f i := by
  induction M with
  | zero => simp
  | succ M ih =>
      rw [List.range_succ, List.foldl_append, ih, Finset.sum_range_succ]
      rfl

theorem sum_colwise_value {α : Type} [AddCommMonoid α] (x : IMatrixXpr α) (j : Int) :
    (sum_colwise x).value j
      = ∑ i in Finset.range x.nrows.toNat, naive_eval x.derived (i : Int) j :=
  foldl_add_eq_sum (fun i => naive_eval x.derived (i : Int) j) x.nrows.toNat

theorem sum_rowwise_value {α : Type} [AddCommMonoid α] (x : IMatrixXpr α) (i : Int) :
    (sum_rowwise x).value i
      = ∑ j in Finset.range x.ncolumns.toNat, naive_eval x.derived i (j : Int) :=
  foldl_add_eq_sum (fun j => naive_eval x.derived i (j : Int)) x.ncolumns.toNat

/-! ## Mean, dot product and norms -/

/-- C21 (defect of the code): `mean(arg, rowwise)` is declared to return the row-wise
sum expression class, so on the 2 x 2 sample `[[1, 2], [3, 4]]` it returns no
expression; the expression of its return statement has the values `3 / 2` and `7 / 2`
(row sum times the reciprocal of the column count), while an expression of the
declared class over the same argument, `sum(arg, rowwise)`, has the bare row sums `3`
and `7`. -/
theorem C21_mean_rowwise_returns_no_mean :
    mean_rowwise (fun _ _ => 0) sample_M = none ∧
    naive_eval (mean_rowwise_return_expr (fun _ _ => 0) sample_M).derived 0 0 = 3 / 2 ∧
    naive_eval (mean_rowwise_return_expr (fun _ _ => 0) sample_M).derived 1 0 = 7 / 2 ∧
    (sum_rowwise sample_M).value 0 = 3 ∧
    (sum_rowwise sample_M).value 1 = 7 := by
  refine ⟨rfl, ?_, ?_, ?_, ?_⟩
  · simp [mean_rowwise_return_expr, mul_fix2, rowwise_reduce_expr.embed,
      rowwise_reduce_expr.value, sum_rowwise, reduce_rowwise, sum_fun, sample_M, dense_leaf,
      naive_eval, math_rcp, List.range_succ]
    norm_num
  · simp [mean_rowwise_return_expr, mul_fix2, rowwise_reduce_expr.embed,
      rowwise_reduce_expr.value, sum_rowwise, reduce_rowwise, sum_fun, sample_M, dense_leaf,
      naive_eval, math_rcp, List.range_succ]
    norm_num
  · simp [rowwise_reduce_expr.value, sum_rowwise, reduce_rowwise, sum_fun, sample_M,
      dense_leaf, naive_eval, List.range_succ]
    norm_num
  · simp [rowwise_reduce_expr.value, sum_rowwise, reduce_rowwise, sum_fun, sample_M,
      dense_leaf, naive_eval, List.range_succ]
    norm_num

/-- C22: for all matrices `a` and `b` of the same shape and each axis, `dot(a, b,
axis)` equals the sum along that axis of the element-wise product `a * b`: the
column-wise result is `1 x n` with entry `j` the sum over the rows `i` of
`a(i, j) * b(i, j)`, the row-wise result is `m x 1` with entry `i` the sum over the
columns `j` of `a(i, j) * b(i, j)`. -/
theorem C22_dot_is_sum_of_products {α : Type} [Semiring α]
    (embed_cost : acc_cate → ker_cate → Int) (a b : IMatrixXpr α)
    (hr : a.nrows = b.nrows) (hc : a.ncolumns = b.ncolumns) :
    ((dot_colwise embed_cost a b).nrows = 1 ∧
      (dot_colwise embed_cost a b).ncolumns = b.ncolumns ∧
      ∀ j : Int,
        (dot_colwise embed_cost a b).value j = (sum_colwise (mul_expr a b)).value j ∧
        (dot_colwise embed_cost a b).value j
          = ∑ i in Finset.range b.nrows.toNat,
              naive_eval a.derived (i : Int) j * naive_eval b.derived (i : Int) j) ∧
    ((dot_rowwise embed_cost a b).nrows = b.nrows ∧
      (dot_rowwise embed_cost a b).ncolumns = 1 ∧
      ∀ i : Int,
        (dot_rowwise embed_cost a b).value i = (sum_rowwise (mul_expr a b)).value i ∧
        (dot_rowwise embed_cost a b).value i
          = ∑ j in Finset.range b.ncolumns.toNat,
              naive_eval a.derived i (j : Int) * naive_eval b.derived i (j : Int)) := by
  refine ⟨⟨rfl, hc, fun j => ⟨rfl, ?_⟩⟩, ⟨hr, rfl, fun i => ⟨rfl, ?_⟩⟩⟩
  · rw [← hr]
    exact sum_colwise_value ((mul_expr a b).embed embed_cost) j
  · rw [← hc]
    exact sum_rowwise_value ((mul_expr a b).embed embed_cost) i

/-- Worked instance of C22 on the integer samples `[[1, -2], [-3, 4]]` and
`[[5, 6], [7, 8]]`: column 0 gives `1 * 5 + (-3) * 7 = -16`, row 0 gives
`1 * 5 + (-2) * 6 = -7`. -/
theorem C22_dot_is_sum_of_products_witness :
    ((dot_colwise (fun _ _ => 0) sample_A sample_B).value 0
        = ∑ i in Finset.range sample_B.nrows.toNat,
            naive_eval sample_A.derived (i : Int) 0 * naive_eval sample_B.derived (i : Int) 0) ∧
    ((dot_rowwise (fun _ _ => 0) sample_A sample_B).value 0
        = ∑ j in Finset.range sample_B.ncolumns.toNat,
            naive_eval sample_A.derived 0 (j : Int) * naive_eval sample_B.derived 0 (j : Int)) ∧
    (dot_colwise (fun _ _ => 0) sample_A sample_B).value 0 = -16 ∧
    (dot_rowwise (fun _ _ => 0) sample_A sample_B).value 0 = -7 :=
  ⟨((C22_dot_is_sum_of_products (fun _ _ => 0) sample_A sample_B rfl rfl).1.2.2 0).2,
    ((C22_dot_is_sum_of_products (fun _ _ => 0) sample_A sample_B rfl rfl).2.2.2 0).2,
    by decide, by decide⟩

/-- C23: for every matrix `A` and each axis, `L2norm(A, axis)` equals `sqrt` applied
entry by entry to `sqL2norm(A, axis)`, and `sqL2norm(A, axis)` equals the sum along
the axis of `sqr(A)`; in particular `L2norm(A, colwise)[j]` is the square root of the
sum over `i` of `A(i, j)^2` (and `L2norm(A, rowwise)[i]` that of the sum over `j`). -/
theorem C23_L2norm_is_sqrt_of_sum_of_squares {α : Type} [Semiring α]
    (embed_cost : acc_cate → ker_cate → Int) (math_sqrt : α → α) (A : IMatrixXpr α) :
    (∀ j : Int,
      naive_eval (L2norm_colwise embed_cost math_sqrt A).derived 0 j
        = math_sqrt ((sqL2norm_colwise embed_cost A).value j) ∧
      (sqL2norm_colwise embed_cost A).value j = (sum_colwise (sqr_expr A)).value j ∧
      (sqL2norm_colwise embed_cost A).value j
        = ∑ i in Finset.range A.nrows.toNat, naive_eval A.derived (i : Int) j ^ 2 ∧
      naive_eval (L2norm_colwise embed_cost math_sqrt A).derived 0 j
        = math_sqrt (∑ i in Finset.range A.nrows.toNat, naive_eval A.derived (i : Int) j ^ 2)) ∧
    (∀ i : Int,
      naive_eval (L2norm_rowwise embed_cost math_sqrt A).derived i 0
        = math_sqrt ((sqL2norm_rowwise embed_cost A).value i) ∧
      (sqL2norm_rowwise embed_cost A).value i = (sum_rowwise (sqr_expr A)).value i ∧
      (sqL2norm_rowwise embed_cost A).value i
        = ∑ j in Finset.range A.ncolumns.toNat, naive_eval A.derived i (j : Int) ^ 2 ∧
      naive_eval (L2norm_rowwise embed_cost math_sqrt A).derived i 0
        = math_sqrt
            (∑ j in Finset.range A.ncolumns.toNat, naive_eval A.derived i (j : Int) ^ 2)) := by
  have hcol : ∀ j : Int, (sqL2norm_colwise embed_cost A).value j
      = ∑ i in Finset.range A.nrows.toNat, naive_eval A.derived (i : Int) j ^ 2 := by
    intro j
    rw [show (sqL2norm_colwise embed_cost A).value j
        = ∑ i in Finset.range A.nrows.toNat,
            naive_eval ((sqr_expr A).embed embed_cost).derived (i : Int) j from
      sum_colwise_value ((sqr_expr A).embed embed_cost) j]
    exact Finset.sum_congr rfl (fun i _ => (pow_two _).symm)
  have hrow : ∀ i : Int, (sqL2norm_rowwise embed_cost A).value i
      = ∑ j in Finset.range A.ncolumns.toNat, naive_eval A.derived i (j : Int) ^ 2 := by
    intro i
    rw [show (sqL2norm_rowwise embed_cost A).value i
        = ∑ j in Finset.range A.ncolumns.toNat,
            naive_eval ((sqr_expr A).embed embed_cost).derived i (j : Int) from
      sum_rowwise_value ((sqr_expr A).embed embed_cost) i]
    exact Finset.sum_congr rfl (fun j _ => (pow_two _).symm)
  refine ⟨fun j => ⟨rfl, rfl, hcol j, ?_⟩, fun i => ⟨rfl, rfl, hrow i, ?_⟩⟩
  · rw [← hcol j]
    rfl
  · rw [← hrow i]
    rfl

/-- C24: for all matrices `a` and `b` of the same shape and each axis,
`nrmdot(a, b, axis)` equals, entry by entry, `dot(a, b, axis)` divided by the product
`L2norm(a, axis) * L2norm(b, axis)`; the column-wise result is `1 x n`, the row-wise
result is `m x 1`. -/
theorem C24_nrmdot_is_dot_over_norms {α : Type} [Zero α] [Add α] [Mul α] [Div α]
    (embed_cost : acc_cate → ker_cate → Int) (math_sqrt : α → α) (a b : IMatrixXpr α)
    (hr : a.nrows = b.nrows) (hc : a.ncolumns = b.ncolumns) :
    ((nrmdot_colwise embed_cost math_sqrt a b).nrows = 1 ∧
      (nrmdot_colwise embed_cost math_sqrt a b).ncolumns = b.ncolumns ∧
      ∀ j : Int,
        naive_eval (nrmdot_colwise embed_cost math_sqrt a b).derived 0 j
          = (dot_colwise embed_cost a b).value j /
            (naive_eval (L2norm_colwise embed_cost math_sqrt a).derived 0 j *
              naive_eval (L2norm_colwise embed_cost math_sqrt b).derived 0 j)) ∧
    ((nrmdot_rowwise embed_cost math_sqrt a b).nrows = b.nrows ∧
      (nrmdot_rowwise embed_cost math_sqrt a b).ncolumns = 1 ∧
      ∀ i : Int,
        naive_eval (nrmdot_rowwise embed_cost math_sqrt a b).derived i 0
          = (dot_rowwise embed_cost a b).value i /
            (naive_eval (L2norm_rowwise embed_cost math_sqrt a).derived i 0 *
              naive_eval (L2norm_rowwise embed_cost math_sqrt b).derived i 0)) :=
  ⟨⟨rfl, hc, fun _ => rfl⟩, ⟨hr, rfl, fun _ => rfl⟩⟩

/-- Worked instance of C24 on the rational sample `[[1, 2], [3, 4]]` with itself and
the identity in place of the square root: column 0 gives `10 / (10 * 10)`, row 0 gives
`5 / (5 * 5)`. -/
theorem C24_nrmdot_is_dot_over_norms_witness :
    naive_eval (nrmdot_colwise (fun _ _ => 0) (fun x => x) sample_M sample_M).derived 0 0
        = (dot_colwise (fun _ _ => 0) sample_M sample_M).value 0 /
          (naive_eval (L2norm_colwise (fun _ _ => 0) (fun x => x) sample_M).derived 0 0 *
            naive_eval (L2norm_colwise (fun _ _ => 0) (fun x => x) sample_M).derived 0 0) ∧
    naive_eval (nrmdot_rowwise (fun _ _ => 0) (fun x => x) sample_M sample_M).derived 0 0
        = (dot_rowwise (fun _ _ => 0) sample_M sample_M).value 0 /
          (naive_eval (L2norm_rowwise (fun _ _ => 0) (fun x => x) sample_M).derived 0 0 *
            naive_eval (L2norm_rowwise (fun _ _ => 0) (fun x => x) sample_M).derived 0 0) ∧
    (dot_colwise (fun _ _ => 0) sample_M sample_M).value 0 = 10 ∧
    (dot_rowwise (fun _ _ => 0) sample_M sample_M).value 0 = 5 :=
  ⟨(C24_nrmdot_is_dot_over_norms (fun _ _ => 0) (fun x => x) sample_M sample_M rfl rfl).1.2.2 0,
    (C24_nrmdot_is_dot_over_norms (fun _ _ => 0) (fun x => x) sample_M sample_M rfl rfl).2.2.2 0,
    by
      simp [dot_colwise, colwise_reduce_expr.value, sum_colwise, reduce_colwise, sum_fun,
        IMatrixXpr.embed, mul_expr, sample_M, dense_leaf, naive_eval, List.range_succ]
      norm_num,
    by
      simp [dot_rowwise, rowwise_reduce_expr.value, sum_rowwise, reduce_rowwise, sum_fun,
        IMatrixXpr.embed, mul_expr, sample_M, dense_leaf, naive_eval, List.range_succ]
      norm_num⟩

theorem abs_sum_mul_le_sqrt_mul_sqrt (f g : Nat → ℝ) (M : Nat) :
    |∑ i in Finset.range M, f i * g i|
      ≤ Real.sqrt (∑ i in Finset.range M, f i ^ 2) *
        Real.sqrt (∑ i in Finset.range M, g i ^ 2) := by
  rw [abs_le]
  constructor
  · have h := Real.sum_mul_le_sqrt_mul_sqrt (Finset.range M) (fun i => -f i) g
    simp only [neg_mul, Finset.sum_neg_distrib, neg_sq] at h
    linarith
  · exact Real.sum_mul_le_sqrt_mul_sqrt (Finset.range M) f g

theorem div_mem_unit_interval_of_pos (d p : ℝ) (hp : 0 < p) (h : |d| ≤ p) :
    -1 ≤ d / p ∧ d / p ≤ 1 := by
  have hd := abs_le.mp h
  constructor
  · rw [le_div_iff₀ hp]
    linarith
  · rw [div_le_iff₀ hp]
    linarith

theorem with_nan_foldl_sum {α : Type} [AddCommMonoid α] (f : Nat → α) (g : Nat → with_nan α)
    (M : Nat) (h : ∀ i : Nat, i < M → g i = .num (f i)) :
    (List.range M).foldl (fun (acc : with_nan α) (i : Nat) => acc + g i) 0
      = .num (∑ i in Finset.range M, f i) := by
  induction M with
  | zero => rfl
  | succ M ih =>
      rw [List.range_succ, List.foldl_append, ih (fun i hi => h i (Nat.lt_succ_of_lt hi))]
      simp only [List.foldl_cons, List.foldl_nil]
      rw [h M (Nat.lt_succ_self M), Finset.sum_range_succ]
      rfl

theorem nrmdot_colwise_real_entry (embed_cost : acc_cate → ker_cate → Int)
    (A B : IMatrixXpr (with_nan ℝ)) (a b : Int → Int → ℝ) (j : Int)
    (hA : ∀ i : Int, 0 ≤ i → i < A.nrows → naive_eval A.derived i j = .num (a i j))
    (hB : ∀ i : Int, 0 ≤ i → i < B.nrows → naive_eval B.derived i j = .num (b i j))
    (hr : A.nrows = B.nrows) :
    (dot_colwise embed_cost A B).value j
        = .num (∑ i in Finset.range A.nrows.toNat, a (i : Int) j * b (i : Int) j) ∧
    naive_eval (L2norm_colwise embed_cost (with_nan.sqrt Real.sqrt) A).derived 0 j
        = .num (Real.sqrt (∑ i in Finset.range A.nrows.toNat, a (i : Int) j ^ 2)) ∧
    naive_eval (L2norm_colwise embed_cost (with_nan.sqrt Real.sqrt) B).derived 0 j
        = .num (Real.sqrt (∑ i in Finset.range A.nrows.toNat, b (i : Int) j ^ 2)) ∧
    |∑ i in Finset.range A.nrows.toNat, a (i : Int) j * b (i : Int) j|
        ≤ Real.sqrt (∑ i in Finset.range A.nrows.toNat, a (i : Int) j ^ 2) *
          Real.sqrt (∑ i in Finset.range A.nrows.toNat, b (i : Int) j ^ 2) ∧
    (Real.sqrt (∑ i in Finset.range A.nrows.toNat, a (i : Int) j ^ 2) ≠ 0 →
      Real.sqrt (∑ i in Finset.range A.nrows.toNat, b (i : Int) j ^ 2) ≠ 0 →
      ∃ r : ℝ,
        naive_eval (nrmdot_colwise embed_cost (with_nan.sqrt Real.sqrt) A B).derived 0 j
          = .num r ∧ -1 ≤ r ∧ r ≤ 1) ∧
    (Real.sqrt (∑ i in Finset.range A.nrows.toNat, a (i : Int) j ^ 2) = 0 ∨
        Real.sqrt (∑ i in Finset.range A.nrows.toNat, b (i : Int) j ^ 2) = 0 →
      naive_eval (nrmdot_colwise embed_cost (with_nan.sqrt Real.sqrt) A B).derived 0 j
        = .nan) := by
  have hAn : ∀ i : Nat, i < A.nrows.toNat →
      naive_eval A.derived (i : Int) j = .num (a (i : Int) j) :=
    fun i hi => hA (i : Int) (Int.natCast_nonneg i) (by omega)
  have hBn : ∀ i : Nat, i < A.nrows.toNat →
      naive_eval B.derived (i : Int) j = .num (b (i : Int) j) :=
    fun i hi => hB (i : Int) (Int.natCast_nonneg i) (by omega)
  have hd : (dot_colwise embed_cost A B).value j
      = .num (∑ i in Finset.range A.nrows.toNat, a (i : Int) j * b (i : Int) j) := by
    refine with_nan_foldl_sum (fun i => a (i : Int) j * b (i : Int) j)
      (fun i => naive_eval A.derived (i : Int) j * naive_eval B.derived (i : Int) j)
      A.nrows.toNat ?_
    intro i hi
    show naive_eval A.derived (i : Int) j * naive_eval B.derived (i : Int) j = _
    rw [hAn i hi, hBn i hi]
    rfl
  have hsqA : (sqL2norm_colwise embed_cost A).value j
      = .num (∑ i in Finset.range A.nrows.toNat, a (i : Int) j ^ 2) := by
    refine with_nan_foldl_sum (fun i => a (i : Int) j ^ 2)
      (fun i => naive_eval A.derived (i : Int) j * naive_eval A.derived (i : Int) j)
      A.nrows.toNat ?_
    intro i hi
    show naive_eval A.derived (i : Int) j * naive_eval A.derived (i : Int) j
      = with_nan.num (a (i : Int) j ^ 2)
    rw [hAn i hi, pow_two]
    rfl
  have hsqB : (sqL2norm_colwise embed_cost B).value j
      = .num (∑ i in Finset.range A.nrows.toNat, b (i : Int) j ^ 2) := by
    have hrows : B.nrows.toNat = A.nrows.toNat := by rw [hr]
    have h0 := with_nan_foldl_sum (fun i => b (i : Int) j ^ 2)
      (fun i => naive_eval B.derived (i : Int) j * naive_eval B.derived (i : Int) j)
      A.nrows.toNat (by
        intro i hi
        show naive_eval B.derived (i : Int) j * naive_eval B.derived (i : Int) j
          = with_nan.num (b (i : Int) j ^ 2)
        rw [hBn i hi, pow_two]
        rfl)
    rw [← hrows] at h0
    rw [← hrows]
    exact h0
  have hnorm : ∀ (X : IMatrixXpr (with_nan ℝ)) (S : ℝ), 0 ≤ S →
      (sqL2norm_colwise embed_cost X).value j = .num S →
      naive_eval (L2norm_colwise embed_cost (with_nan.sqrt Real.sqrt) X).derived 0 j
        = .num (Real.sqrt S) := by
    intro X S hS hX
    show with_nan.sqrt Real.sqrt ((sqL2norm_colwise embed_cost X).value j) = _
    rw [hX]
    show (if 0 ≤ S then with_nan.num (Real.sqrt S) else with_nan.nan) = _
    rw [if_pos hS]
  have hLA := hnorm A (∑ i in Finset.range A.nrows.toNat, a (i : Int) j ^ 2)
    (Finset.sum_nonneg (fun i _ => sq_nonneg (a (i : Int) j))) hsqA
  have hLB := hnorm B (∑ i in Finset.range A.nrows.toNat, b (i : Int) j ^ 2)
    (Finset.sum_nonneg (fun i _ => sq_nonneg (b (i : Int) j))) hsqB
  have hcs := abs_sum_mul_le_sqrt_mul_sqrt (fun i => a (i : Int) j) (fun i => b (i : Int) j)
    A.nrows.toNat
  have hq : naive_eval (nrmdot_colwise embed_cost (with_nan.sqrt Real.sqrt) A B).derived 0 j
      = (if Real.sqrt (∑ i in Finset.range A.nrows.toNat, a (i : Int) j ^ 2) *
            Real.sqrt (∑ i in Finset.range A.nrows.toNat, b (i : Int) j ^ 2) = 0
          then with_nan.nan
          else with_nan.num ((∑ i in Finset.range A.nrows.toNat, a (i : Int) j * b (i : Int) j) /
            (Real.sqrt (∑ i in Finset.range A.nrows.toNat, a (i : Int) j ^ 2) *
              Real.sqrt (∑ i in Finset.range A.nrows.toNat, b (i : Int) j ^ 2)))) := by
    show (dot_colwise embed_cost A B).value j /
        (naive_eval (L2norm_colwise embed_cost (with_nan.sqrt Real.sqrt) A).derived 0 j *
          naive_eval (L2norm_colwise embed_cost (with_nan.sqrt Real.sqrt) B).derived 0 j) = _
    rw [hd, hLA, hLB]
    rfl
  refine ⟨hd, hLA, hLB, hcs, ?_, ?_⟩
  · intro h1 h2
    have hne : Real.sqrt (∑ i in Finset.range A.nrows.toNat, a (i : Int) j ^ 2) *
        Real.sqrt (∑ i in Finset.range A.nrows.toNat, b (i : Int) j ^ 2) ≠ 0 :=
      mul_ne_zero h1 h2
    have hpos : 0 < Real.sqrt (∑ i in Finset.range A.nrows.toNat, a (i : Int) j ^ 2) *
        Real.sqrt (∑ i in Finset.range A.nrows.toNat, b (i : Int) j ^ 2) :=
      lt_of_le_of_ne (mul_nonneg (Real.sqrt_nonneg _) (Real.sqrt_nonneg _)) (Ne.symm hne)
    refine ⟨_, ?_, div_mem_unit_interval_of_pos _ _ hpos hcs⟩
    rw [hq, if_neg hne]
  · intro h
    have hz : Real.sqrt (∑ i in Finset.range A.nrows.toNat, a (i : Int) j ^ 2) *
        Real.sqrt (∑ i in Finset.range A.nrows.toNat, b (i : Int) j ^ 2) = 0 := by
      rcases h with h | h
      · rw [h, zero_mul]
      · rw [h, mul_zero]
    rw [hq, if_pos hz]

/-- C25, as stated, fails for a column of zeros: for the real-valued 2 x 1 zero matrix
taken as both `A` and `B`, the entry of `nrmdot(A, B, colwise)` is the quotient of the
dot product 0 by the product of norms 0, which is not a number, so it is no real in
`[-1, 1]`. -/
theorem C25_counterexample_zero_column :
    naive_eval (nrmdot_colwise (fun _ _ => 0) (with_nan.sqrt Real.sqrt)
        (dense_xpr 2 1 (fun _ _ => with_nan.num (0 : ℝ)))
        (dense_xpr 2 1 (fun _ _ => with_nan.num (0 : ℝ)))).derived 0 0 = with_nan.nan ∧
    ¬ ∃ r : ℝ,
      naive_eval (nrmdot_colwise (fun _ _ => 0) (with_nan.sqrt Real.sqrt)
        (dense_xpr 2 1 (fun _ _ => with_nan.num (0 : ℝ)))
        (dense_xpr 2 1 (fun _ _ => with_nan.num (0 : ℝ)))).derived 0 0 = with_nan.num r ∧
      -1 ≤ r ∧ r ≤ 1 := by
  have hnan : naive_eval (nrmdot_colwise (fun _ _ => 0) (with_nan.sqrt Real.sqrt)
      (dense_xpr 2 1 (fun _ _ => with_nan.num (0 : ℝ)))
      (dense_xpr 2 1 (fun _ _ => with_nan.num (0 : ℝ)))).derived 0 0 = with_nan.nan :=
    (nrmdot_colwise_real_entry (fun _ _ => 0)
      (dense_xpr 2 1 (fun _ _ => with_nan.num (0 : ℝ)))
      (dense_xpr 2 1 (fun _ _ => with_nan.num (0 : ℝ))) (fun _ _ => 0) (fun _ _ => 0) 0
      (fun _ _ _ => rfl) (fun _ _ _ => rfl) rfl).2.2.2.2.2 (Or.inl (by simp))
  refine ⟨hnan, ?_⟩
  rintro ⟨r, hr, _⟩
  rw [hnan] at hr
  cases hr

/-- C25 (amended): for all real-valued matrices `A` and `B` of the same shape and
every column `j`, in exact arithmetic the column-wise dot product is bounded in
absolute value by the product of the two column-wise L2 norms; when both norms are
nonzero the entry `j` of `nrmdot(A, B, colwise)` is a real number in `[-1, 1]`; when
one of the norms is zero (an all-zero or empty column) the entry is not a number. -/
theorem C25_nrmdot_colwise_in_unit_interval_of_nonzero_norms (embed_cost : acc_cate → ker_cate → Int)
    (A B : IMatrixXpr (with_nan ℝ)) (a b : Int → Int → ℝ) (j : Int)
    (hA : ∀ i : Int, 0 ≤ i → i < A.nrows → naive_eval A.derived i j = .num (a i j))
    (hB : ∀ i : Int, 0 ≤ i → i < B.nrows → naive_eval B.derived i j = .num (b i j))
    (hr : A.nrows = B.nrows) :
    (dot_colwise embed_cost A B).value j
        = .num (∑ i in Finset.range A.nrows.toNat, a (i : Int) j * b (i : Int) j) ∧
    naive_eval (L2norm_colwise embed_cost (with_nan.sqrt Real.sqrt) A).derived 0 j
        = .num (Real.sqrt (∑ i in Finset.range A.nrows.toNat, a (i : Int) j ^ 2)) ∧
    naive_eval (L2norm_colwise embed_cost (with_nan.sqrt Real.sqrt) B).derived 0 j
        = .num (Real.sqrt (∑ i in Finset.range A.nrows.toNat, b (i : Int) j ^ 2)) ∧
    |∑ i in Finset.range A.nrows.toNat, a (i : Int) j * b (i : Int) j|
        ≤ Real.sqrt (∑ i in Finset.range A.nrows.toNat, a (i : Int) j ^ 2) *
          Real.sqrt (∑ i in Finset.range A.nrows.toNat, b (i : Int) j ^ 2) ∧
    (Real.sqrt (∑ i in Finset.range A.nrows.toNat, a (i : Int) j ^ 2) ≠ 0 →
      Real.sqrt (∑ i in Finset.range A.nrows.toNat, b (i : Int) j ^ 2) ≠ 0 →
      ∃ r : ℝ,
        naive_eval (nrmdot_colwise embed_cost (with_nan.sqrt Real.sqrt) A B).derived 0 j
          = .num r ∧ -1 ≤ r ∧ r ≤ 1) ∧
    (Real.sqrt (∑ i in Finset.range A.nrows.toNat, a (i : Int) j ^ 2) = 0 ∨
        Real.sqrt (∑ i in Finset.range A.nrows.toNat, b (i : Int) j ^ 2) = 0 →
      naive_eval (nrmdot_colwise embed_cost (with_nan.sqrt Real.sqrt) A B).derived 0 j
        = .nan) :=
  nrmdot_colwise_real_entry embed_cost A B a b j hA hB hr

/-- Worked instance of amended C25 on the real 2 x 1 columns `(1, 2)` and `(1, 1)`,
whose norms are nonzero: the entry of `nrmdot` is a real number in `[-1, 1]`. -/
theorem C25_nrmdot_colwise_in_unit_interval_of_nonzero_norms_witness :
    ∃ r : ℝ,
      naive_eval (nrmdot_colwise (fun _ _ => 0) (with_nan.sqrt Real.sqrt)
        (dense_xpr 2 1 (fun i _ => with_nan.num ((i : ℝ) + 1)))
        (dense_xpr 2 1 (fun _ _ => with_nan.num (1 : ℝ)))).derived 0 0 = with_nan.num r ∧
      -1 ≤ r ∧ r ≤ 1 :=
  (C25_nrmdot_colwise_in_unit_interval_of_nonzero_norms (fun _ _ => 0)
    (dense_xpr 2 1 (fun i _ => with_nan.num ((i : ℝ) + 1)))
    (dense_xpr 2 1 (fun _ _ => with_nan.num (1 : ℝ)))
    (fun i _ => (i : ℝ) + 1) (fun _ _ => 1) 0
    (fun _ _ _ => rfl) (fun _ _ _ => rfl) rfl).2.2.2.2.1
    (by
      rw [Real.sqrt_ne_zero']
      simp [dense_xpr, Finset.sum_range_succ]
      positivity)
    (by
      rw [Real.sqrt_ne_zero']
      simp [dense_xpr, Finset.sum_range_succ])

/-- C26: for every matrix `a` and each axis, `L1norm(a, axis)` equals the sum along
the axis of `abs(a)`: entry `j` of the column-wise result is the sum over the rows
`i` of `|a(i, j)|`, entry `i` of the row-wise result the sum over the columns `j`. -/
theorem C26_L1norm_is_sum_of_abs {α : Type} [Lattice α] [AddCommGroup α]
    (embed_cost : acc_cate → ker_cate → Int) (a : IMatrixXpr α) :
    (∀ j : Int,
      (L1norm_colwise embed_cost a).value j = (sum_colwise (abs_expr a)).value j ∧
      (L1norm_colwise embed_cost a).value j
        = ∑ i in Finset.range a.nrows.toNat, |naive_eval a.derived (i : Int) j|) ∧
    (∀ i : Int,
      (L1norm_rowwise embed_cost a).value i = (sum_rowwise (abs_expr a)).value i ∧
      (L1norm_rowwise embed_cost a).value i
        = ∑ j in Finset.range a.ncolumns.toNat, |naive_eval a.derived i (j : Int)|) :=
  ⟨fun j => ⟨rfl, sum_colwise_value ((abs_expr a).embed embed_cost) j⟩,
    fun i => ⟨rfl, sum_rowwise_value ((abs_expr a).embed embed_cost) i⟩⟩

/-- Worked instance of C26 on the integer sample `[[1, -2], [-3, 4]]`: column 0 gives
`|1| + |-3| = 4`, row 1 gives `|-3| + |4| = 7`. -/
theorem C26_L1norm_is_sum_of_abs_witness :
    (L1norm_colwise (fun _ _ => 0) sample_A).value 0
        = ∑ i in Finset.range sample_A.nrows.toNat, |naive_eval sample_A.derived (i : Int) 0| ∧
    (L1norm_colwise (fun _ _ => 0) sample_A).value 0 = 4 ∧
    (L1norm_rowwise (fun _ _ => 0) sample_A).value 1 = 7 :=
  ⟨((C26_L1norm_is_sum_of_abs (fun _ _ => 0) sample_A).1 0).2, by decide, by decide⟩

theorem foldl_max_spec {α : Type} [LinearOrder α] (f : Nat → α) (lowest : α) (M : Nat) :
    (∀ i : Nat, i < M →
      f i ≤ (List.range M).foldl (fun (acc : α) (i : Nat) => max acc (f i)) lowest) ∧
    lowest ≤ (List.range M).foldl (fun (acc : α) (i : Nat) => max acc (f i)) lowest ∧
    ((List.range M).foldl (fun (acc : α) (i : Nat) => max acc (f i)) lowest = lowest ∨
      ∃ i : Nat, i < M ∧
        (List.range M).foldl (fun (acc : α) (i : Nat) => max acc (f i)) lowest = f i) := by
  induction M with
  | zero =>
      refine ⟨fun i hi => absurd hi (Nat.not_lt_zero i), le_refl _, Or.inl rfl⟩
  | succ M ih =>
      obtain ⟨h1, h2, h3⟩ := ih
      rw [List.range_succ, List.foldl_append]
      simp only [List.foldl_cons, List.foldl_nil]
      refine ⟨?_, le_trans h2 (le_max_left _ _), ?_⟩
      · intro i hi
        rcases Nat.lt_succ_iff_lt_or_eq.mp hi with hlt | heq
        · exact le_trans (h1 i hlt) (le_max_left _ _)
        · rw [heq]
          exact le_max_right _ _
      · rcases le_total (f M)
          ((List.range M).foldl (fun (acc : α) (i : Nat) => max acc (f i)) lowest) with hle | hle
        · rw [max_eq_left hle]
          rcases h3 with h3 | ⟨i, hi, h3⟩
          · exact Or.inl h3
          · exact Or.inr ⟨i, Nat.lt_succ_of_lt hi, h3⟩
        · rw [max_eq_right hle]
          exact Or.inr ⟨M, Nat.lt_succ_self M, rfl⟩

theorem foldl_max_attained {α : Type} [LinearOrder α] (f : Nat → α) (lowest : α) (M : Nat)
    (hM : 0 < M) (hlow : ∀ i : Nat, i < M → lowest ≤ f i) :
    (∀ i : Nat, i < M →
      f i ≤ (List.range M).foldl (fun (acc : α) (i : Nat) => max acc (f i)) lowest) ∧
    ∃ i : Nat, i < M ∧
      (List.range M).foldl (fun (acc : α) (i : Nat) => max acc (f i)) lowest = f i := by
  obtain ⟨h1, _, h3⟩ := foldl_max_spec f lowest M
  refine ⟨h1, ?_⟩
  rcases h3 with h3 | h3
  · refine ⟨0, hM, le_antisymm ?_ (h1 0 hM)⟩
    rw [h3]
    exact hlow 0 hM
  · exact h3

/-- C27: for every matrix `a` and each axis, `Linfnorm(a, axis)` equals the maximum
along the axis of `abs(a)`; when the axis is not empty (and the functor's identity
`lowest` is at most 0, so below every absolute value) each output entry is the
largest absolute value among the entries along the reduced axis: it bounds every
`|a(i, j)|` of the column (row) and is one of them. -/
theorem C27_Linfnorm_is_max_of_abs {α : Type} [LinearOrderedAddCommGroup α]
    (embed_cost : acc_cate → ker_cate → Int) (lowest : α) (a : IMatrixXpr α)
    (hlow : lowest ≤ 0) :
    (∀ j : Int,
      (Linfnorm_colwise embed_cost lowest a).value j
        = (maximum_colwise lowest (abs_expr a)).value j ∧
      (0 < a.nrows →
        (∀ i : Int, 0 ≤ i → i < a.nrows →
          |naive_eval a.derived i j| ≤ (Linfnorm_colwise embed_cost lowest a).value j) ∧
        ∃ i : Int, 0 ≤ i ∧ i < a.nrows ∧
          (Linfnorm_colwise embed_cost lowest a).value j = |naive_eval a.derived i j|)) ∧
    (∀ i : Int,
      (Linfnorm_rowwise embed_cost lowest a).value i
        = (maximum_rowwise lowest (abs_expr a)).value i ∧
      (0 < a.ncolumns →
        (∀ j : Int, 0 ≤ j → j < a.ncolumns →
          |naive_eval a.derived i j| ≤ (Linfnorm_rowwise embed_cost lowest a).value i) ∧
        ∃ j : Int, 0 ≤ j ∧ j < a.ncolumns ∧
          (Linfnorm_rowwise embed_cost lowest a).value i = |naive_eval a.derived i j|)) := by
  constructor
  · intro j
    refine ⟨rfl, fun hpos => ?_⟩
    have hv : (Linfnorm_colwise embed_cost lowest a).value j
        = (List.range a.nrows.toNat).foldl
            (fun (acc : α) (i : Nat) => max acc |naive_eval a.derived (i : Int) j|) lowest := rfl
    obtain ⟨h1, k, hk, h2⟩ := foldl_max_attained
      (fun i : Nat => |naive_eval a.derived (i : Int) j|) lowest a.nrows.toNat (by omega)
      (fun i _ => le_trans hlow (abs_nonneg _))
    rw [hv]
    constructor
    · intro i hi0 hi
      obtain ⟨n, rfl⟩ := Int.eq_ofNat_of_zero_le hi0
      exact h1 n (by omega)
    · exact ⟨(k : Int), Int.natCast_nonneg k, by omega, h2⟩
  · intro i
    refine ⟨rfl, fun hpos => ?_⟩
    have hv : (Linfnorm_rowwise embed_cost lowest a).value i
        = (List.range a.ncolumns.toNat).foldl
            (fun (acc : α) (j : Nat) => max acc |naive_eval a.derived i (j : Int)|) lowest := rfl
    obtain ⟨h1, k, hk, h2⟩ := foldl_max_attained
      (fun j : Nat => |naive_eval a.derived i (j : Int)|) lowest a.ncolumns.toNat (by omega)
      (fun j _ => le_trans hlow (abs_nonneg _))
    rw [hv]
    constructor
    · intro j hj0 hj
      obtain ⟨n, rfl⟩ := Int.eq_ofNat_of_zero_le hj0
      exact h1 n (by omega)
    · exact ⟨(k : Int), Int.natCast_nonneg k, by omega, h2⟩

/-- Worked instance of C27 on the integer sample `[[1, -2], [-3, 4]]` with identity
`0`: column 0 gives `max(|1|, |-3|) = 3`, row 1 gives `max(|-3|, |4|) = 4`. -/
theorem C27_Linfnorm_is_max_of_abs_witness :
    (∃ i : Int, 0 ≤ i ∧ i < sample_A.nrows ∧
      (Linfnorm_colwise (fun _ _ => 0) 0 sample_A).value 0
        = |naive_eval sample_A.derived i 0|) ∧
    (Linfnorm_colwise (fun _ _ => 0) 0 sample_A).value 0 = 3 ∧
    (Linfnorm_rowwise (fun _ _ => 0) 0 sample_A).value 1 = 4 :=
  ⟨(((C27_Linfnorm_is_max_of_abs (fun _ _ => 0) 0 sample_A (le_refl 0)).1 0).2
      (by decide)).2,
    by decide, by decide⟩

/-! ## Closed form of the cost model and column states -/

theorem macc_cost_eq_sum_leaf_costs {α : Type} (e : Xpr α) (cat : acc_cate) (ker : ker_cate) :
    macc_cost e cat ker = (leaf_costs e cat ker).sum := by
  induction e with
  | leaf mat => simp [macc_cost, leaf_costs]
  | unary_ewise_expr op arg ih => simpa [macc_cost, leaf_costs] using ih
  | binary_ewise_expr op a b iha ihb => simp [macc_cost, leaf_costs, iha, ihb]
  | binary_fix1st_ewise_expr op v b ih => simpa [macc_cost, leaf_costs] using ih
  | binary_fix2nd_ewise_expr op a v ih => simpa [macc_cost, leaf_costs] using ih

/-- C28: cost values are non-negative for every composite expression: if the
`macc_cost` of every leaf operand is non-negative, then for every expression tree
built from unary, binary, fixed-first and fixed-second nodes and every access/kernel
category the expression's `macc_cost` is non-negative. -/
theorem C28_macc_cost_nonneg {α : Type} (e : Xpr α) (cat : acc_cate) (ker : ker_cate)
    (hleaf : ∀ c ∈ leaf_costs e cat ker, 0 ≤ c) :
    0 ≤ macc_cost e cat ker := by
  rw [macc_cost_eq_sum_leaf_costs]
  exact List.sum_nonneg hleaf

/-- Worked instance of C28: the sample tree with leaf costs 3, 50, 3 for linear access
has cost 56. -/
theorem C28_macc_cost_nonneg_witness :
    leaf_costs sample_cost_expr .linear_macc .scalar_kernel_t = [3, 50, 3] ∧
    0 ≤ macc_cost sample_cost_expr .linear_macc .scalar_kernel_t ∧
    macc_cost sample_cost_expr .linear_macc .scalar_kernel_t = 56 :=
  ⟨rfl, C28_macc_cost_nonneg sample_cost_expr .linear_macc .scalar_kernel_t (by decide), rfl⟩

/-- C29: per-column state composition. For every column `j`, a binary accessor's
`col_state(j)` is the pair of the first and the second operand's `col_state(j)`, and
its `get_scalar(i, s)` passes `s.first` to the first operand and `s.second` to the
second; a unary, fixed-first or fixed-second accessor's `col_state(j)` is exactly its
single matrix operand's `col_state(j)`, and its `get_scalar(i, s)` passes `s` on
unchanged. -/
theorem C29_col_state_composition :
    (∀ (α β γ : Type) (m_fun : α → β → γ) (a1 : percol_accessor α) (a2 : percol_accessor β)
      (j : Int),
      (percol_accessor.binary_ewise_accessor m_fun a1 a2).col_state j
        = (a1.col_state j, a2.col_state j)) ∧
    (∀ (α β γ : Type) (m_fun : α → β → γ) (a1 : percol_accessor α) (a2 : percol_accessor β)
      (i : Int) (s : percol_macc_state_map a1 × percol_macc_state_map a2),
      (percol_accessor.binary_ewise_accessor m_fun a1 a2).get_scalar i s
        = m_fun (a1.get_scalar i s.1) (a2.get_scalar i s.2)) ∧
    (∀ (α β : Type) (m_fun : α → β) (a : percol_accessor α) (i j : Int)
      (s : percol_macc_state_map a),
      (percol_accessor.unary_ewise_accessor m_fun a).col_state j = a.col_state j ∧
      (percol_accessor.unary_ewise_accessor m_fun a).get_scalar i s
        = m_fun (a.get_scalar i s)) ∧
    (∀ (α β γ : Type) (m_fun : α → β → γ) (v : α) (a : percol_accessor β) (i j : Int)
      (s : percol_macc_state_map a),
      (percol_accessor.binary_fix1st_ewise_accessor m_fun v a).col_state j = a.col_state j ∧
      (percol_accessor.binary_fix1st_ewise_accessor m_fun v a).get_scalar i s
        = m_fun v (a.get_scalar i s)) ∧
    (∀ (α β γ : Type) (m_fun : α → β → γ) (a : percol_accessor α) (v : β) (i j : Int)
      (s : percol_macc_state_map a),
      (percol_accessor.binary_fix2nd_ewise_accessor m_fun a v).col_state j = a.col_state j ∧
      (percol_accessor.binary_fix2nd_ewise_accessor m_fun a v).get_scalar i s
        = m_fun (a.get_scalar i s) v) ∧
    (∀ (α β γ : Type) (op : α → β → γ) (a : Xpr α) (b : Xpr β) (j : Int),
      (make_percol_accessor (.binary_ewise_expr op a b)).col_state j
        = ((make_percol_accessor a).col_state j, (make_percol_accessor b).col_state j)) ∧
    (∀ (α β γ : Type) (op : α → β) (op1 : γ → α → β) (op2 : α → γ → β) (c : γ) (a : Xpr α)
      (j : Int),
      (make_percol_accessor (.unary_ewise_expr op a)).col_state j
        = (make_percol_accessor a).col_state j ∧
      (make_percol_accessor (.binary_fix1st_ewise_expr op1 c a)).col_state j
        = (make_percol_accessor a).col_state j ∧
      (make_percol_accessor (.binary_fix2nd_ewise_expr op2 a c)).col_state j
        = (make_percol_accessor a).col_state j) :=
  ⟨fun _ _ _ _ _ _ _ => rfl, fun _ _ _ _ _ _ _ _ => rfl,
    fun _ _ _ _ _ _ _ => ⟨rfl, rfl⟩, fun _ _ _ _ _ _ _ _ _ => ⟨rfl, rfl⟩,
    fun _ _ _ _ _ _ _ _ _ => ⟨rfl, rfl⟩, fun _ _ _ _ _ _ _ => rfl,
    fun _ _ _ _ _ _ _ _ _ => ⟨rfl, rfl, rfl⟩⟩

/-- C30: closed form of the cost model. For every expression tree and every
access/kernel category, `macc_cost` of the tree equals the sum of the `macc_cost` of
its leaf matrix operands, each leaf counted once per occurrence; hence two trees
whose leaf costs agree up to order have the same cost, whatever their operators,
their nesting, their fixed scalar operands and their value types. -/
theorem C30_macc_cost_closed_form :
    (∀ (α : Type) (e : Xpr α) (cat : acc_cate) (ker : ker_cate),
      macc_cost e cat ker = (leaf_costs e cat ker).sum) ∧
    (∀ (α β : Type) (e₁ : Xpr α) (e₂ : Xpr β) (cat : acc_cate) (ker : ker_cate),
      (leaf_costs e₁ cat ker).Perm (leaf_costs e₂ cat ker) →
      macc_cost e₁ cat ker = macc_cost e₂ cat ker) := by
  refine ⟨fun _ e cat ker => macc_cost_eq_sum_leaf_costs e cat ker, ?_⟩
  intro α β e₁ e₂ cat ker h
  rw [macc_cost_eq_sum_leaf_costs, macc_cost_eq_sum_leaf_costs]
  exact h.sum_eq

/-- Worked instance of C30: two sample trees over the same three leaves (costs 3, 50,
3 for linear access) with different operators, fixed scalars and nesting both cost
`3 + 50 + 3 = 56`. -/
theorem C30_macc_cost_closed_form_witness :
    macc_cost sample_cost_expr .linear_macc .scalar_kernel_t
        = (leaf_costs sample_cost_expr .linear_macc .scalar_kernel_t).sum ∧
    macc_cost sample_cost_expr .linear_macc .scalar_kernel_t
        = macc_cost sample_cost_expr_2 .linear_macc .scalar_kernel_t ∧
    macc_cost sample_cost_expr_2 .linear_macc .scalar_kernel_t = 56 :=
  ⟨C30_macc_cost_closed_form.1 Int sample_cost_expr .linear_macc .scalar_kernel_t,
    C30_macc_cost_closed_form.2 Int Int sample_cost_expr sample_cost_expr_2 .linear_macc
      .scalar_kernel_t (by decide),
    rfl⟩

/-! ## Short-column penalty: monotonicity and independence of the column count -/

theorem get_default_use_linear_of_le {α β : Type} (e : Xpr α) (d : dense_dest β)
    (h1 : -2147483648 ≤ macc_cost e .percol_macc .scalar_kernel_t + 100)
    (h2 : macc_cost e .percol_macc .scalar_kernel_t + 100 < 2147483648)
    (hle : macc_cost e .linear_macc .scalar_kernel_t
      ≤ macc_cost e .percol_macc .scalar_kernel_t) :
    (macc_scheme_any_scalar.get_default e d).use_linear = true := by
  rw [get_default_use_linear_iff]
  by_cases hm : d.nrows ≤ 100
  · rw [if_pos hm, int_add_eq_of_in_range _ _ h1 h2]
    omega
  · rw [if_neg hm]
    exact hle

/-- C31: the short-column penalty can only move the decision towards linear and is
applied once, at the root. For a fixed expression whose per-column cost plus 100 fits
an `int`: if the unpenalised comparison `linear_cost <= percol_cost` holds then
`get_default` chooses linear for every destination; if it chooses linear for some
destination with more than 100 rows then it chooses linear for every row count; and
for every destination with at most 100 rows linear is chosen iff
`linear_cost <= percol_cost + 100`, which in terms of the leaves is
`sum of linear leaf costs <= sum of per-column leaf costs + 100` with a single 100
whatever the number of nodes in the expression. -/
theorem C31_penalty_towards_linear_once {α : Type} (e : Xpr α)
    (h1 : -2147483648 ≤ macc_cost e .percol_macc .scalar_kernel_t + 100)
    (h2 : macc_cost e .percol_macc .scalar_kernel_t + 100 < 2147483648) :
    (∀ (β : Type) (d : dense_dest β),
      macc_cost e .linear_macc .scalar_kernel_t ≤ macc_cost e .percol_macc .scalar_kernel_t →
      (macc_scheme_any_scalar.get_default e d).use_linear = true) ∧
    (∀ (β₁ β₂ : Type) (d₁ : dense_dest β₁) (d₂ : dense_dest β₂), 100 < d₁.nrows →
      (macc_scheme_any_scalar.get_default e d₁).use_linear = true →
      (macc_scheme_any_scalar.get_default e d₂).use_linear = true) ∧
    (∀ (β : Type) (d : dense_dest β), d.nrows ≤ 100 →
      ((macc_scheme_any_scalar.get_default e d).use_linear = true ↔
        macc_cost e .linear_macc .scalar_kernel_t
          ≤ macc_cost e .percol_macc .scalar_kernel_t + 100)) ∧
    (∀ (β : Type) (d : dense_dest β), d.nrows ≤ 100 →
      ((macc_scheme_any_scalar.get_default e d).use_linear = true ↔
        (leaf_costs e .linear_macc .scalar_kernel_t).sum
          ≤ (leaf_costs e .percol_macc .scalar_kernel_t).sum + 100)) := by
  have hshort : ∀ (β : Type) (d : dense_dest β), d.nrows ≤ 100 →
      ((macc_scheme_any_scalar.get_default e d).use_linear = true ↔
        macc_cost e .linear_macc .scalar_kernel_t
          ≤ macc_cost e .percol_macc .scalar_kernel_t + 100) := by
    intro β d hm
    have key := get_default_use_linear_iff e d
    rw [if_pos hm, int_add_eq_of_in_range _ _ h1 h2] at key
    exact key
  refine ⟨fun β d hle => get_default_use_linear_of_le e d h1 h2 hle, ?_, hshort, ?_⟩
  · intro β₁ β₂ d₁ d₂ hm hlin
    have key := get_default_use_linear_iff e d₁
    rw [if_neg (not_le.mpr hm)] at key
    exact get_default_use_linear_of_le e d₂ h1 h2 (key.mp hlin)
  · intro β d hm
    rw [← macc_cost_eq_sum_leaf_costs, ← macc_cost_eq_sum_leaf_costs]
    exact hshort β d hm

/-- Worked instance of C31. A leaf with costs 3 (linear) and 5 (per column) is
evaluated linearly with 101 rows, hence also with 3 rows. The sample tree with three
leaves has leaf costs 3, 50, 3 (linear) and 5, 0, 5 (per column): with 100 rows it is
evaluated linearly because `56 <= 10 + 100`, a single penalty. -/
theorem C31_penalty_towards_linear_once_witness :
    (macc_scheme_any_scalar.get_default (Xpr.leaf sample_leaf_3_5) sample_dest).use_linear
        = true ∧
    ((macc_scheme_any_scalar.get_default sample_cost_expr sample_dest_100).use_linear = true ↔
      (leaf_costs sample_cost_expr .linear_macc .scalar_kernel_t).sum
        ≤ (leaf_costs sample_cost_expr .percol_macc .scalar_kernel_t).sum + 100) ∧
    (leaf_costs sample_cost_expr .linear_macc .scalar_kernel_t).sum = 56 ∧
    (leaf_costs sample_cost_expr .percol_macc .scalar_kernel_t).sum = 10 ∧
    (macc_scheme_any_scalar.get_default sample_cost_expr sample_dest_100).use_linear = true ∧
    (macc_scheme_any_scalar.get_default sample_cost_expr sample_dest_101).use_linear = false :=
  ⟨(C31_penalty_towards_linear_once (Xpr.leaf sample_leaf_3_5) (by decide) (by decide)).2.1
      Int Int sample_dest_101 sample_dest (by decide) (by decide),
    (C31_penalty_towards_linear_once sample_cost_expr (by decide) (by decide)).2.2.2
      Int sample_dest_100 (by decide),
    by decide, by decide, by decide, by decide⟩

/-- C32: the linear/per-column decision of `get_default` does not depend on the
destination's column count: for one expression and any two destinations with the same
row count, `use_linear` is the same whatever their column counts (and element types
and contents). -/
theorem C32_decision_independent_of_columns {α β₁ β₂ : Type} (e : Xpr α)
    (d₁ : dense_dest β₁) (d₂ : dense_dest β₂) (hm : d₁.nrows = d₂.nrows) :
    (macc_scheme_any_scalar.get_default e d₁).use_linear
      = (macc_scheme_any_scalar.get_default e d₂).use_linear := by
  unfold macc_scheme_any_scalar.get_default macc_scheme_any_scalar.use_linear
  simp only [hm]

/-- Worked instance of C32: a 100 x 1 and a 100 x 5000 destination get the same
decision for the sample tree. -/
theorem C32_decision_independent_of_columns_witness :
    sample_dest_100.ncolumns = 1 ∧ sample_dest_100_wide.ncolumns = 5000 ∧
    (macc_scheme_any_scalar.get_default sample_cost_expr sample_dest_100).use_linear
      = (macc_scheme_any_scalar.get_default sample_cost_expr sample_dest_100_wide).use_linear :=
  ⟨rfl, rfl,
    C32_decision_independent_of_columns sample_cost_expr sample_dest_100 sample_dest_100_wide
      rfl⟩

/-! ## Accessors read only the queried position -/

theorem get_scalar_in_eq_some {α : Type} (dom : Int → Bool) (acc : linear_accessor α)
    (i : Int) (hi : dom i = true) :
    acc.get_scalar_in dom i = some (acc.get_scalar i) := by
  induction acc with
  | leaf get => simp [linear_accessor.get_scalar_in, linear_accessor.get_scalar, hi]
  | unary_ewise_accessor m_fun a ih =>
      simp [linear_accessor.get_scalar_in, linear_accessor.get_scalar, ih]
  | binary_ewise_accessor m_fun a b iha ihb =>
      simp [linear_accessor.get_scalar_in, linear_accessor.get_scalar, iha, ihb]
  | binary_fix1st_ewise_accessor m_fun v b ih =>
      simp [linear_accessor.get_scalar_in, linear_accessor.get_scalar, ih]
  | binary_fix2nd_ewise_accessor m_fun a v ih =>
      simp [linear_accessor.get_scalar_in, linear_accessor.get_scalar, ih]

theorem get_scalar_in_eq_none {α : Type} (dom : Int → Bool) (acc : linear_accessor α)
    (i : Int) (hi : dom i = false) :
    acc.get_scalar_in dom i = none := by
  induction acc with
  | leaf get => simp [linear_accessor.get_scalar_in, hi]
  | unary_ewise_accessor m_fun a ih => simp [linear_accessor.get_scalar_in, ih]
  | binary_ewise_accessor m_fun a b iha ihb => simp [linear_accessor.get_scalar_in, iha]
  | binary_fix1st_ewise_accessor m_fun v b ih => simp [linear_accessor.get_scalar_in, ih]
  | binary_fix2nd_ewise_accessor m_fun a v ih => simp [linear_accessor.get_scalar_in, ih]

theorem get_scalar_map_leaves {α : Type} (F : (α : Type) → leaf_mat α → leaf_mat α)
    (e : Xpr α) (i : Int) (h : leaves_fixed_at F i e) :
    (make_linear_accessor (map_leaves F e)).get_scalar i
      = (make_linear_accessor e).get_scalar i := by
  induction e with
  | leaf mat => exact h
  | unary_ewise_expr op arg ih =>
      simp only [map_leaves, make_linear_accessor, linear_accessor.get_scalar, ih h]
  | binary_ewise_expr op a b iha ihb =>
      simp only [map_leaves, make_linear_accessor, linear_accessor.get_scalar, iha h.1,
        ihb h.2]
  | binary_fix1st_ewise_expr op v b ih =>
      simp only [map_leaves, make_linear_accessor, linear_accessor.get_scalar, ih h]
  | binary_fix2nd_ewise_expr op a v ih =>
      simp only [map_leaves, make_linear_accessor, linear_accessor.get_scalar, ih h]

/-- C33: element-wise accessors read only the queried position. For every expression
tree and index `i`: if every leaf lookup is defined at `i` then the composite
`get_scalar(i)` is defined and is the accessor's value, even when the leaves are
defined at no index other than `i` (so no other index is queried); if the leaf
lookups are undefined at `i` the composite is undefined (the leaves are queried at
`i`); and replacing the leaves by leaves with other elements at indices other than
`i` does not change `get_scalar(i)`. -/
theorem C33_reads_only_queried_index :
    (∀ (α : Type) (e : Xpr α) (i : Int) (dom : Int → Bool), dom i = true →
      (make_linear_accessor e).get_scalar_in dom i
        = some ((make_linear_accessor e).get_scalar i)) ∧
    (∀ (α : Type) (e : Xpr α) (i : Int),
      (make_linear_accessor e).get_scalar_in (fun k => decide (k = i)) i
        = some ((make_linear_accessor e).get_scalar i)) ∧
    (∀ (α : Type) (e : Xpr α) (i : Int) (dom : Int → Bool), dom i = false →
      (make_linear_accessor e).get_scalar_in dom i = none) ∧
    (∀ (α : Type) (F : (α : Type) → leaf_mat α → leaf_mat α) (e : Xpr α) (i : Int),
      leaves_fixed_at F i e →
      (make_linear_accessor (map_leaves F e)).get_scalar i
        = (make_linear_accessor e).get_scalar i) :=
  ⟨fun _ e i dom hi => get_scalar_in_eq_some dom (make_linear_accessor e) i hi,
    fun _ e i => get_scalar_in_eq_some _ (make_linear_accessor e) i (decide_eq_true rfl),
    fun _ e i dom hi => get_scalar_in_eq_none dom (make_linear_accessor e) i hi,
    fun _ F e i h => get_scalar_map_leaves F e i h⟩

/-- Worked instance of C33 on the sample tree at index 4: with leaves defined on
`[0, 6)` the value is defined, and overwriting every leaf element except the one at
index 4 leaves `get_scalar(4)` unchanged although `get_scalar(3)` changes. -/
theorem C33_reads_only_queried_index_witness :
    (make_linear_accessor sample_expr).get_scalar_in (fun k => decide (0 ≤ k ∧ k < 6)) 4
        = some ((make_linear_accessor sample_expr).get_scalar 4) ∧
    (make_linear_accessor (map_leaves sample_leaf_change sample_expr)).get_scalar 4
        = (make_linear_accessor sample_expr).get_scalar 4 ∧
    (make_linear_accessor (map_leaves sample_leaf_change sample_expr)).get_scalar 3
        ≠ (make_linear_accessor sample_expr).get_scalar 3 :=
  ⟨C33_reads_only_queried_index.1 Int sample_expr 4 _ (by decide),
    C33_reads_only_queried_index.2.2.2 Int sample_leaf_change sample_expr 4 ⟨rfl, rfl⟩,
    by decide⟩

/-! ## Element count of reduction expressions -/

/-- C34: reduction expressions keep the element count consistent with the shape. For
every argument expression and functor, `colwise_reduce_expr` and
`rowwise_reduce_expr` satisfy `nelems() = nrows() * ncolumns()`, and
`size() = nelems()` whenever the kept dimension of the argument is a non-negative
count that fits `size_t`. -/
theorem C34_reduce_nelems_size {Fun α : Type} (f : Fun) (arg : IMatrixXpr α) :
    ((reduce_colwise f arg).nelems
        = (reduce_colwise f arg).nrows * (reduce_colwise f arg).ncolumns ∧
      (0 ≤ arg.ncolumns → arg.ncolumns < 18446744073709551616 →
        (reduce_colwise f arg).size = (reduce_colwise f arg).nelems)) ∧
    ((reduce_rowwise f arg).nelems
        = (reduce_rowwise f arg).nrows * (reduce_rowwise f arg).ncolumns ∧
      (0 ≤ arg.nrows → arg.nrows < 18446744073709551616 →
        (reduce_rowwise f arg).size = (reduce_rowwise f arg).nelems)) := by
  refine ⟨⟨?_, ?_⟩, ⟨?_, ?_⟩⟩
  · show arg.ncolumns = 1 * arg.ncolumns
    rw [one_mul]
  · intro h0 h1
    show arg.ncolumns % 18446744073709551616 = arg.ncolumns
    exact Int.emod_eq_of_lt h0 h1
  · show arg.nrows = arg.nrows * 1
    rw [mul_one]
  · intro h0 h1
    show arg.nrows % 18446744073709551616 = arg.nrows
    exact Int.emod_eq_of_lt h0 h1

/-- Worked instance of C34 on the 3 x 2 sample: the column-wise reduction has
`nelems() = size() = 2 = 1 * 2`, the row-wise reduction `nelems() = size() = 3 = 3 * 1`. -/
theorem C34_reduce_nelems_size_witness :
    ((reduce_colwise (sum_fun Int) sample_ones).size
        = (reduce_colwise (sum_fun Int) sample_ones).nelems ∧
      (reduce_colwise (sum_fun Int) sample_ones).nelems = 2) ∧
    ((reduce_rowwise (sum_fun Int) sample_ones).size
        = (reduce_rowwise (sum_fun Int) sample_ones).nelems ∧
      (reduce_rowwise (sum_fun Int) sample_ones).nelems = 3) :=
  ⟨⟨(C34_reduce_nelems_size (sum_fun Int) sample_ones).1.2 (by decide) (by decide), rfl⟩,
    ⟨(C34_reduce_nelems_size (sum_fun Int) sample_ones).2.2 (by decide) (by decide), rfl⟩⟩

end lmat
